import Mathlib

/-!
Verification of the mkwlog local record store and its CSV codec.

The development shallowly embeds the program's core functions
(time-format codec, time ledger, ranking engine, CSV codec, persistence
load) over `List Char` strings, mirroring the source line by line.
JavaScript strings are modeled as `List Char`; JavaScript numbers
arising from time parsing are modeled as `ℚ` (all compared values come
from validated decimal strings, where IEEE doubles order exactly as the
rationals they round); browser externals (clock, random ids, the
key-value storage, JSON.parse) are passed in as explicit parameters.
-/

namespace Mkwlog

/-- Strings of the embedded program, as lists of characters. -/
abbrev Str := List Char

/-- Coercion from Lean string literals to embedded strings. -/
def S (s : String) : Str := s.data

/-- JavaScript `\d` character class (the ten ASCII digits). -/
def isDig (c : Char) : Bool := c ∈ ['0', '1', '2', '3', '4', '5', '6', '7', '8', '9']

/-- Regex character class `[0-5]` (high digit of a seconds field). -/
def isSecHi (c : Char) : Bool := c ∈ ['0', '1', '2', '3', '4', '5']

/-- Numeric value of an ASCII digit. -/
def digitVal (c : Char) : Nat := c.toNat - '0'.toNat

/-- JavaScript `parseInt` restricted to all-digit inputs (every call site
in the embedded code parses a substring already matched against `\d+`). -/
def parseNat (s : Str) : Nat := s.foldl (fun n c => 10 * n + digitVal c) 0

/-- Resolve one index of JavaScript `String.prototype.slice`: negative
indices count from the end, and everything is clamped into `[0, len]`. -/
def jsSliceIdx (len : Nat) (i : Int) : Nat :=
  if i < 0 then len - (-i).toNat else min i.toNat len

/-- JavaScript `s.slice(a, b)`: the characters in `[a, b)` after index
resolution. -/
def jsSlice (s : Str) (a b : Int) : Str :=
  (s.take (jsSliceIdx s.length b)).drop (jsSliceIdx s.length a)

/-- The input mask `formatTimeString` (source lines 1270-1308): strips
non-digits, truncates to 7 digits, and reformats as minutes / seconds /
milliseconds with the seconds component clamped to 59. -/
def formatTimeString (value : Str) : Str :=
  let digits := value.filter isDig
  if digits.length = 0 then []
  else
    let limitedDigits := jsSlice digits 0 7
    if limitedDigits.length ≤ 1 then
      limitedDigits
    else if limitedDigits.length ≤ 3 then
      let minutes := jsSlice limitedDigits 0 (-2)
      let seconds := jsSlice limitedDigits (-2) limitedDigits.length
      let seconds := if parseNat seconds > 59 then ['5', '9'] else seconds
      minutes ++ ':' :: seconds
    else
      let minutes := jsSlice limitedDigits 0 (-5)
      let seconds := jsSlice limitedDigits (-5) (-3)
      let milliseconds := jsSlice limitedDigits (-3) limitedDigits.length
      let seconds := if parseNat seconds > 59 then ['5', '9'] else seconds
      minutes ++ ':' :: (seconds ++ '.' :: milliseconds)

/-- Matcher for the pattern `^\d{1,2}(:[0-5]\d(\.\d{3})?)?$` named by the
input-mask claim (this one definition follows the claim's words, to be
compared against the behavior of `formatTimeString`). -/
def claimMaskPattern : Str → Bool
  | [a] => isDig a
  | [a, b] => isDig a && isDig b
  | [a, c, s1, s2] => isDig a && (c = ':') && isSecHi s1 && isDig s2
  | [a, b, c, s1, s2] => isDig a && isDig b && (c = ':') && isSecHi s1 && isDig s2
  | [a, c, s1, s2, p, d1, d2, d3] =>
      isDig a && (c = ':') && isSecHi s1 && isDig s2 && (p = '.') &&
      isDig d1 && isDig d2 && isDig d3
  | [a, b, c, s1, s2, p, d1, d2, d3] =>
      isDig a && isDig b && (c = ':') && isSecHi s1 && isDig s2 && (p = '.') &&
      isDig d1 && isDig d2 && isDig d3
  | _ => false

/-- Strict time grammar `^\d{1,2}:[0-5]\d\.\d{3}$` (the `timeRegex` of
`isValidTimeFormat`, source line 528). -/
def strictTimeMatch : Str → Bool
  | [m1, c, s1, s2, p, d1, d2, d3] =>
      isDig m1 && (c = ':') && isSecHi s1 && isDig s2 && (p = '.') &&
      isDig d1 && isDig d2 && isDig d3
  | [m1, m2, c, s1, s2, p, d1, d2, d3] =>
      isDig m1 && isDig m2 && (c = ':') && isSecHi s1 && isDig s2 && (p = '.') &&
      isDig d1 && isDig d2 && isDig d3
  | _ => false

/-- Tail of the lenient grammar after at least one minutes digit: either the
terminal `:\d{2}\.\d{3}` block (which is exactly 7 characters long, so the
first case is purely structural) or one more minutes digit. -/
def lenientTail : Str → Bool
  | [c, s1, s2, p, d1, d2, d3] =>
      (c = ':') && isDig s1 && isDig s2 && (p = '.') && isDig d1 && isDig d2 && isDig d3
  | c :: rest => isDig c && lenientTail rest
  | [] => false

/-- Lenient CSV-import time grammar `^\d+:\d{2}\.\d{3}$` (source line 1531). -/
def lenientTimeMatch : Str → Bool
  | [] => false
  | c :: rest => isDig c && lenientTail rest

/-- JavaScript `String.prototype.trim` (drop whitespace at both ends). -/
def jsTrim (s : Str) : Str :=
  (((s.dropWhile Char.isWhitespace).reverse).dropWhile Char.isWhitespace).reverse

/-- Prepend a character to the first chunk of a split result. -/
def consHead (c : Char) : List Str → List Str
  | [] => [[c]]
  | s :: ss => (c :: s) :: ss

/-- JavaScript `String.prototype.split` on a single-character separator. -/
def splitOnChar (sep : Char) : Str → List Str
  | [] => [[]]
  | c :: rest =>
      if c = sep then [] :: splitOnChar sep rest else consHead c (splitOnChar sep rest)

/-- The validator `isValidTimeFormat` (source lines 524-540): emptiness
guard, the strict regex, then the redundant re-parse of minutes/seconds. -/
def isValidTimeFormat (timeStr : Str) : Bool :=
  if timeStr.isEmpty || (jsTrim timeStr).isEmpty then false
  else if !strictTimeMatch timeStr then false
  else
    let parts := splitOnChar ':' timeStr
    let minutes := parseNat parts.headI
    let secondsPart := splitOnChar '.' (parts.getD 1 [])
    let seconds := parseNat secondsPart.headI
    decide (0 ≤ minutes) && decide (0 ≤ seconds) && decide (seconds ≤ 59)

/-- Kernel-computable rational addition.  The ambient `+` on `ℚ` is
`@[irreducible]`, which would block `decide` on concrete program states;
this computes the same value — see `ratAdd_eq_add`. -/
def ratAdd (a b : ℚ) : ℚ := mkRat (a.num * b.den + b.num * a.den) (a.den * b.den)

/-- JavaScript `parseFloat`, modeled on the decimal shapes (`digits` or
`digits.digits`) that every validated call site produces; the value of
`digits.digits` is `int + frac/10^k` — see `parseFloatQ_frac_value`. -/
def parseFloatQ (s : Str) : ℚ :=
  match splitOnChar '.' s with
  | [intPart] => (parseNat intPart : ℚ)
  | [intPart, fracPart] =>
      ratAdd (parseNat intPart : ℚ) (mkRat (parseNat fracPart) ((10 : Nat) ^ fracPart.length))
  | _ => 0

/-- The codec `convertTimeToSeconds` (source lines 758-766): split on `':'`;
two parts mean `minutes*60 + seconds.milliseconds`, otherwise the whole
string parses as a bare seconds value. -/
def convertTimeToSeconds (timeStr : Str) : ℚ :=
  let parts := splitOnChar ':' timeStr
  if parts.length = 2 then
    ratAdd ((parseNat parts.headI * 60 : Nat) : ℚ) (parseFloatQ (parts.getD 1 []))
  else parseFloatQ timeStr

/-- The `TimeEntry` record (source lines 93-100).  The TS-optional
`vehicle`/`character` fields are modeled as plain strings with the absent
value `''`; every embedded operation treats `undefined` and `''` alike. -/
structure TimeEntry where
  time : Str
  circuit : Str
  profileId : Str
  date : Str
  vehicle : Str
  character : Str
deriving DecidableEq

instance : Inhabited TimeEntry := ⟨⟨[], [], [], [], [], []⟩⟩

/-- The `Profile` record (source lines 115-122). -/
structure Profile where
  id : Str
  name : Str
  character : Str
  characterSkin : Str
  vehicle : Str
  createdAt : Str
deriving DecidableEq

instance : Inhabited Profile := ⟨⟨[], [], [], [], [], []⟩⟩

/-- The reactive refs the embedded operations read and write (times,
profiles, recent circuits, selections, the add and edit forms, and the
staged-import state).  Purely presentational refs are omitted;
`saveToLocalStorage` writes to the external store and does not change this
state, so it is modeled as the identity. -/
structure AppState where
  times : List TimeEntry
  profiles : List Profile
  recentCircuitsList : List Str
  selectedProfileId : Str
  selectedCircuit : Str
  formTime : Str
  editingTimeId : Option Nat
  editTime : Str
  editCircuit : Str
  editCharacter : Str
  editVehicle : Str
  pendingImportData : List TimeEntry
  importErrorCount : Nat
  showImportConfirmation : Bool
  showRelativeTime : Bool
deriving DecidableEq

/-- The ternary `existingTimesForCircuit.length > 0 ? Math.min(...) :
Infinity` (source line 844); `Infinity` is `⊤` in `WithTop ℚ`. -/
def currentBestTime (existing : List TimeEntry) : WithTop ℚ :=
  if existing.length > 0 then
    match existing.map (fun t => convertTimeToSeconds t.time) with
    | [] => ⊤
    | x :: xs => ↑(xs.foldl min x)
  else ⊤

/-- The ledger operation `addTime` (source lines 830-891).  Returns the
updated state together with the personal-best flag `isNewBest` (the
observable confetti trigger).  `now` stands for `new Date().toISOString()`. -/
def addTime (now : Str) (st : AppState) : AppState × Bool :=
  if st.formTime.isEmpty || st.selectedCircuit.isEmpty || st.selectedProfileId.isEmpty then
    (st, false)
  else if !isValidTimeFormat st.formTime then (st, false)
  else
    let newTimeSeconds := convertTimeToSeconds st.formTime
    let existingTimesForCircuit := st.times.filter (fun t => t.circuit == st.selectedCircuit)
    let isNewBest : Bool := decide ((newTimeSeconds : WithTop ℚ) < currentBestTime existingTimesForCircuit)
    let profile := st.profiles.find? (fun p => p.id == st.selectedProfileId)
    let newTime : TimeEntry :=
      { time := st.formTime
        circuit := st.selectedCircuit
        profileId := st.selectedProfileId
        date := now
        vehicle := match profile with | some p => p.vehicle | none => []
        character := match profile with | some p => p.character | none => [] }
    let currentList := st.recentCircuitsList.erase st.selectedCircuit
    ({ st with
        times := st.times ++ [newTime]
        recentCircuitsList := (st.selectedCircuit :: currentList).take 8
        formTime := [] }, isNewBest)

/-- The table operation `saveEdit` (source lines 1206-1223): refuse unless
all four edit-form fields are non-empty and an entry is being edited;
otherwise overwrite the entry in place, keeping the original `profileId`
and `date`, then reset the edit form (`cancelEdit`). -/
def saveEdit (st : AppState) : AppState :=
  if st.editTime.isEmpty || st.editCircuit.isEmpty || st.editCharacter.isEmpty ||
      st.editVehicle.isEmpty || st.editingTimeId.isNone then st
  else
    match st.editingTimeId with
    | none => st
    | some index =>
      let old := st.times.getD index default
      { st with
          times := st.times.set index
            { time := st.editTime, circuit := st.editCircuit, profileId := old.profileId,
              date := old.date, vehicle := st.editVehicle, character := st.editCharacter }
          editingTimeId := none
          editTime := []
          editCircuit := []
          editCharacter := []
          editVehicle := [] }

/-- The claim's personal-best expression: minimum of `toSeconds` over the
same-circuit entries, the minimum over an empty set being `+∞` (this
definition follows the claim's words, to be compared with the code's
`currentBestTime`). -/
def specBestOf (entries : List TimeEntry) : WithTop ℚ :=
  (entries.map (fun t => ((convertTimeToSeconds t.time : ℚ) : WithTop ℚ))).foldr min ⊤

/-- A concrete ledger entry used by several concrete-input theorems. -/
def sampleEntry : TimeEntry :=
  { time := S "1:30.000", circuit := S "Mario Circuit", profileId := S "p1",
    date := S "2024-01-01", vehicle := S "Standard Kart", character := S "Mario" }

/-- The all-empty application state, a base for concrete-input theorems. -/
def emptyState : AppState :=
  { times := [], profiles := [], recentCircuitsList := [], selectedProfileId := [],
    selectedCircuit := [], formTime := [], editingTimeId := none, editTime := [],
    editCircuit := [], editCharacter := [], editVehicle := [], pendingImportData := [],
    importErrorCount := 0, showImportConfirmation := false, showRelativeTime := false }

/-- The medal record stored in the rankings map (source lines 1714-1720). -/
structure RankInfo where
  rank : Nat
  medal : Str
  color : Str
deriving DecidableEq

/-- The gold entry `{ rank: 1, medal: 🥇, color: gold }`. -/
def goldInfo : RankInfo := ⟨1, S "🥇", S "gold"⟩

/-- The silver entry. -/
def silverInfo : RankInfo := ⟨2, S "🥈", S "silver"⟩

/-- The bronze entry. -/
def bronzeInfo : RankInfo := ⟨3, S "🥉", S "bronze"⟩

/-- The ranking key template string (source lines 1686 and 1712). -/
def rankKey (t : TimeEntry) : Str :=
  t.time ++ '-' :: t.circuit ++ '-' :: t.character ++ '-' :: t.vehicle ++ '-' :: t.date

/-- The grouping `times.reduce(...)` into a string-keyed object (source
lines 1695-1704): keys in first-occurrence order, each group accumulating
entries in ledger order. -/
def circuitGroups (times : List TimeEntry) : List (Str × List TimeEntry) :=
  times.foldl
    (fun groups t =>
      if groups.any (fun g => g.1 == t.circuit) then
        groups.map (fun g => if g.1 == t.circuit then (g.1, g.2 ++ [t]) else g)
      else groups ++ [(t.circuit, [t])])
    []

/-- Stable insertion into a list sorted ascending by `convertTimeToSeconds`:
the new element goes after every element it does not strictly precede.
With the left fold below this models the stable (ES2019)
`Array.prototype.sort` under the comparator
`(a, b) => convertTimeToSeconds(a.time) - convertTimeToSeconds(b.time)`
of source line 1708. -/
def stableInsert (x : TimeEntry) : List TimeEntry → List TimeEntry
  | [] => [x]
  | y :: ys =>
      if convertTimeToSeconds x.time < convertTimeToSeconds y.time then x :: y :: ys
      else y :: stableInsert x ys

/-- The per-group stable sort (source line 1708). -/
def sortByTime (l : List TimeEntry) : List TimeEntry :=
  l.foldl (fun acc x => stableInsert x acc) []

/-- JavaScript `Map.set` on a string-keyed map modeled as an association
list: overwrite in place when the key exists, else append. -/
def mapSet (m : List (Str × RankInfo)) (k : Str) (v : RankInfo) : List (Str × RankInfo) :=
  if m.any (fun p => p.1 == k) then m.map (fun p => if p.1 == k then (k, v) else p)
  else m ++ [(k, v)]

/-- JavaScript `Map.get` (first matching key, else `undefined`). -/
def mapGet (m : List (Str × RankInfo)) (k : Str) : Option RankInfo :=
  (m.find? (fun p => p.1 == k)).map (fun p => p.2)

/-- The computed `timeRankings` (source lines 1691-1725): group by circuit,
stable-sort each group by seconds, store medal info for ranks 1-3 only. -/
def timeRankings (times : List TimeEntry) : List (Str × RankInfo) :=
  (circuitGroups times).foldl
    (fun rankings g =>
      (sortByTime g.2).enum.foldl
        (fun rankings p =>
          let rank := p.1 + 1
          let key := rankKey p.2
          if rank = 1 then mapSet rankings key goldInfo
          else if rank = 2 then mapSet rankings key silverInfo
          else if rank = 3 then mapSet rankings key bronzeInfo
          else rankings)
        rankings)
    []

/-- The lookup `getTimeRanking` (source lines 1685-1688). -/
def getTimeRanking (times : List TimeEntry) (t : TimeEntry) : Option RankInfo :=
  mapGet (timeRankings times) (rankKey t)

/-- First entry of the ranking claim's example (inserted first). -/
def rankE1 : TimeEntry := { sampleEntry with time := S "1:20.000", date := S "2025-01-01" }

/-- Second entry of the ranking claim's example. -/
def rankE2 : TimeEntry := { sampleEntry with time := S "1:15.000", date := S "2025-01-02" }

/-- Third entry of the ranking claim's example (tied with the second). -/
def rankE3 : TimeEntry := { sampleEntry with time := S "1:15.000", date := S "2025-01-03" }

/-- The CSV row record `CSVTimeEntry` (source lines 1380-1387). -/
structure CSVTimeEntry where
  time_of_entry : Str
  track : Str
  character : Str
  outfit : Str
  kart : Str
  race_time : Str
deriving DecidableEq

/-- JavaScript string truthiness fallback `a || b`. -/
def jsOr (a b : Str) : Str := if a.isEmpty then b else a

/-- The encoder `timeEntryToCSV` (source lines 1390-1400), with its
`?? / ||` fallback chains for deleted or partial profiles. -/
def timeEntryToCSV (profiles : List Profile) (t : TimeEntry) : CSVTimeEntry :=
  let profile := profiles.find? (fun p => p.id == t.profileId)
  { time_of_entry := t.date
    track := t.circuit
    character := jsOr t.character
      (jsOr (match profile with | some p => p.character | none => []) (S "Unknown Character"))
    outfit := jsOr (match profile with | some p => p.characterSkin | none => []) (S "Default")
    kart := jsOr t.vehicle
      (jsOr (match profile with | some p => p.vehicle | none => []) (S "Standard Kart"))
    race_time := t.time }

/-- The six field values of a row, in header order (source line 1440). -/
def csvFieldList (r : CSVTimeEntry) : List Str :=
  [r.time_of_entry, r.track, r.character, r.outfit, r.kart, r.race_time]

/-- The quoting condition of the export (source line 1448). -/
def needsQuote (v : Str) : Bool := v.contains ',' || v.contains '"' || v.contains '\n'

/-- `value.replace(/"/g, '""')` (source line 1449). -/
def doubleQuotes (v : Str) : Str :=
  v.flatMap (fun c => if c = '"' then ['"', '"'] else [c])

/-- RFC-4180-style quoting of one exported value (source lines 1448-1451). -/
def escapeCSVField (v : Str) : Str :=
  if needsQuote v then '"' :: (doubleQuotes v ++ ['"']) else v

/-- JavaScript `Array.prototype.join` with a one-character separator. -/
def joinSep (sep : Char) : List Str → Str
  | [] => []
  | [x] => x
  | x :: y :: xs => x ++ sep :: joinSep sep (y :: xs)

/-- The fixed header list (source lines 1440 and 1490). -/
def expectedHeaders : List Str :=
  [S "time_of_entry", S "track", S "character", S "outfit", S "kart", S "race_time"]

/-- The header line of the export. -/
def headerLine : Str := joinSep ',' expectedHeaders

/-- One encoded data row. -/
def csvRowLine (r : CSVTimeEntry) : Str := joinSep ',' ((csvFieldList r).map escapeCSVField)

/-- The CSV text built by `exportToCSV` (source lines 1440-1455); the
DOM download plumbing around it is external. -/
def exportCSVContent (profiles : List Profile) (times : List TimeEntry) : Str :=
  joinSep '\n' (headerLine :: times.map (fun t => csvRowLine (timeEntryToCSV profiles t)))

/-- The quote-aware splitter `parseCSVLine` (source lines 1646-1677),
written as recursion over the remaining characters with the `inQuotes`
state; `consHead` plays the role of the `current` accumulator, and the
one-character case is the loop tail where `line[i+1]` is out of bounds
(so the `line[i+1] === '"'` lookahead is false). -/
def parseCSVLineGo (inQuotes : Bool) : Str → List Str
  | [] => [[]]
  | [c] =>
      if c = '"' then
        if inQuotes then parseCSVLineGo false [] else parseCSVLineGo true []
      else if c = ',' ∧ inQuotes = false then [] :: parseCSVLineGo inQuotes []
      else consHead c (parseCSVLineGo inQuotes [])
  | c :: c2 :: rest =>
      if c = '"' then
        if inQuotes ∧ c2 = '"' then consHead '"' (parseCSVLineGo true rest)
        else if inQuotes then parseCSVLineGo false (c2 :: rest)
        else parseCSVLineGo true (c2 :: rest)
      else if c = ',' ∧ inQuotes = false then [] :: parseCSVLineGo inQuotes (c2 :: rest)
      else consHead c (parseCSVLineGo inQuotes (c2 :: rest))

/-- Entry point of the splitter (initial state: outside quotes). -/
def parseCSVLine (line : Str) : List Str := parseCSVLineGo false line

/-- `value.replace(/"/g, '')` — the quote strip applied to every data
value during import (source line 1520). -/
def stripQuotes (v : Str) : Str := v.filter (fun c => c != '"')

/-- The blank-line filter `filter(line => line.trim())` (source line 1482). -/
def nonBlank (line : Str) : Bool := !(jsTrim line).isEmpty

/-- Header parsing `lines[0].split(',').map(h => h.trim().replace(/"/g, ''))`
(source line 1489) — a plain split, not the quote-aware one. -/
def parseHeaders (line : Str) : List Str :=
  (splitOnChar ',' line).map (fun h => stripQuotes (jsTrim h))

/-- `expectedHeaders.every(header => headers.includes(header))` (line 1493). -/
def hasAllHeaders (headers : List Str) : Bool :=
  expectedHeaders.all (fun h => headers.contains h)

/-- One `csvEntry[header] = values[index]` assignment (source lines
1518-1522): only the six known headers are assigned, others ignored. -/
def setCSVField (r : CSVTimeEntry) (h v : Str) : CSVTimeEntry :=
  if h = S "time_of_entry" then { r with time_of_entry := v }
  else if h = S "track" then { r with track := v }
  else if h = S "character" then { r with character := v }
  else if h = S "outfit" then { r with outfit := v }
  else if h = S "kart" then { r with kart := v }
  else if h = S "race_time" then { r with race_time := v }
  else r

/-- The row object built by the `headers.forEach` loop (source lines
1508-1522), starting from all-empty fields. -/
def buildCSVEntry (headers values : List Str) : CSVTimeEntry :=
  (headers.zip values).foldl (fun r hv => setCSVField r hv.1 (stripQuotes hv.2))
    ⟨[], [], [], [], [], []⟩

/-- The profile lookup by exact (character, outfit, kart) triple
(source line 1405). -/
def findProfileByTriple (profiles : List Profile) (ch outfit kart : Str) : Option Profile :=
  profiles.find? (fun p => p.character == ch && p.characterSkin == outfit && p.vehicle == kart)

/-- The profile synthesized during import (source lines 1409-1416);
`freshId` stands for the generated `profile_${Date.now()}_${random}`. -/
def mkImportProfile (freshId now ch outfit kart : Str) : Profile :=
  { id := freshId, name := ch ++ S " (" ++ outfit ++ S ")", character := ch,
    characterSkin := outfit, vehicle := kart, createdAt := now }

/-- The converter `csvToTimeEntry` (source lines 1403-1428): resolve or
synthesize the profile (mutating the registry), then build the entry. -/
def csvToTimeEntry (freshId now : Str) (profiles : List Profile) (e : CSVTimeEntry) :
    TimeEntry × List Profile :=
  match findProfileByTriple profiles e.character e.outfit e.kart with
  | some p =>
      ({ time := e.race_time, circuit := e.track, profileId := p.id, date := e.time_of_entry,
         vehicle := e.kart, character := e.character }, profiles)
  | none =>
      let p := mkImportProfile freshId now e.character e.outfit e.kart
      ({ time := e.race_time, circuit := e.track, profileId := p.id, date := e.time_of_entry,
         vehicle := e.kart, character := e.character }, profiles ++ [p])

/-- State threaded through the data-row loop of `importFromCSV`:
staged entries, error count, the (mutable) profile registry and the count
of profiles synthesized so far (which indexes the fresh-id source). -/
structure ImportLoopState where
  newTimes : List TimeEntry
  errors : Nat
  profiles : List Profile
  created : Nat
deriving DecidableEq

/-- One iteration of the data-row loop (source lines 1503-1541): skip
silently on a field-count mismatch, count an error on a missing required
field or a lenient-grammar failure, otherwise convert and stage. -/
def importLine (headers : List Str) (freshIds : Nat → Str) (now : Str)
    (s : ImportLoopState) (line : Str) : ImportLoopState :=
  let values := parseCSVLine line
  if values.length ≠ headers.length then s
  else
    let e := buildCSVEntry headers values
    if e.track.isEmpty || e.character.isEmpty || e.race_time.isEmpty then
      { s with errors := s.errors + 1 }
    else if !lenientTimeMatch e.race_time then { s with errors := s.errors + 1 }
    else
      let r := csvToTimeEntry (freshIds s.created) now s.profiles e
      { newTimes := s.newTimes ++ [r.1], errors := s.errors, profiles := r.2,
        created := if r.2.length = s.profiles.length then s.created else s.created + 1 }

/-- The decode stage of `importFromCSV` (source lines 1472-1566) once the
file text is available: split and drop blank lines, abort on fewer than
two lines or a header missing a required column, run the row loop, then
either alert (no valid rows) or stage the batch for confirmation.
`freshIds` and `now` stand for the id generator and the clock. -/
def importFromCSV (freshIds : Nat → Str) (now : Str) (st : AppState) (csvText : Str) :
    AppState :=
  let lines := (splitOnChar '\n' csvText).filter nonBlank
  if lines.length < 2 then st
  else
    let headers := parseHeaders lines.headI
    if !hasAllHeaders headers then st
    else
      let res := lines.tail.foldl (importLine headers freshIds now) ⟨[], 0, st.profiles, 0⟩
      if res.newTimes.isEmpty then { st with profiles := res.profiles }
      else
        { st with profiles := res.profiles, pendingImportData := res.newTimes,
                  importErrorCount := res.errors, showImportConfirmation := true }

/-- The Replace commit `confirmImportReplace` (source lines 1569-1581). -/
def confirmImportReplace (st : AppState) : AppState :=
  { st with times := st.pendingImportData, showImportConfirmation := false,
            pendingImportData := [], importErrorCount := 0 }

/-- The Append commit `confirmImportAppend` (source lines 1584-1596). -/
def confirmImportAppend (st : AppState) : AppState :=
  { st with times := st.times ++ st.pendingImportData, showImportConfirmation := false,
            pendingImportData := [], importErrorCount := 0 }

/-- The Cancel action `cancelImport` (source lines 1599-1603): discard the
pending batch; the ledger and the profile registry are not touched. -/
def cancelImport (st : AppState) : AppState :=
  { st with showImportConfirmation := false, pendingImportData := [], importErrorCount := 0 }

/-- Prepend a whole field to the first chunk of a split result (the
many-character analogue of `consHead`). -/
def prependField (f : Str) : List Str → List Str
  | [] => [f]
  | s :: ss => (f ++ s) :: ss

/-- An entry whose circuit contains a double quote, for the quoting
theorems. -/
def quoteEntry : TimeEntry :=
  { time := S "1:15.000", circuit := S "Mario\x22s Raceway", profileId := S "p1",
    date := S "2024-01-03", vehicle := S "Standard Kart", character := S "Mario" }

/-- A CSV text with a valid header, one valid row, and one two-field row. -/
def c2BadText : Str :=
  headerLine ++ '\n' :: S "2024-01-01,Mario Circuit,Mario,Default,Standard Kart,1:20.000"
    ++ '\n' :: S "a,b"

/-- A CSV text with one valid row whose (character, outfit, kart) triple
matches no existing profile. -/
def c10Text : Str :=
  headerLine ++ '\n' :: S "2024-01-05,Rainbow Road,Luigi,Summer,Bike,1:22.333"

/-- A good CSV row for the round trip: all six fields non-empty and free
of double quotes and newlines, and the race time in the strict grammar
(commas are allowed — the quoting protects them). -/
def goodCSVRow (r : CSVTimeEntry) : Prop :=
  (∀ v ∈ csvFieldList r, v ≠ [] ∧ '"' ∉ v ∧ '\n' ∉ v) ∧ strictTimeMatch r.race_time = true

instance (r : CSVTimeEntry) : Decidable (goodCSVRow r) := by
  unfold goodCSVRow; infer_instance

/-- The `TimeEntry` literal built by `csvToTimeEntry` (source lines
1420-1427), parameterized by the resolved profile id. -/
def rowEntry (pid : Str) (r : CSVTimeEntry) : TimeEntry :=
  { time := r.race_time, circuit := r.track, profileId := pid, date := r.time_of_entry,
    vehicle := r.kart, character := r.character }

/-- Fresh-id source used in the concrete round-trip run. -/
def freshIdsW (n : Nat) : Str := List.replicate n 'f'

/-- A concrete ledger entry whose circuit contains a comma (and an
apostrophe). -/
def toadEntry : TimeEntry :=
  { time := S "1:15.000", circuit := S "Toad\x27s Factory, Remix", profileId := S "p1",
    date := S "2024-01-01", vehicle := S "Standard Kart", character := S "Toad" }

/-- App state holding only the comma-circuit entry (empty registry). -/
def toadState : AppState := { emptyState with times := [toadEntry] }

/-- Outcome of `localStorage.getItem` followed by `JSON.parse` for one
persisted key: the key can be absent (`getItem` returns null and the guard
skips the parse), present but malformed (`JSON.parse` throws), or present
and well-formed with a decoded value. -/
inductive JsonCell (α : Type) where
  | missing : JsonCell α
  | malformed : JsonCell α
  | ok : α → JsonCell α
deriving DecidableEq

/-- The four persisted keys written by `saveToLocalStorage` (source lines
906-909) and read back by `loadFromLocalStorage` (source lines 948-970). -/
structure StorageModel where
  times : JsonCell (List TimeEntry)
  profiles : JsonCell (List Profile)
  recentCircuits : JsonCell (List Str)
  showRelativeTime : JsonCell Bool
deriving DecidableEq

/-- Stable insertion for the date-descending sort of the circuit
auto-select fallback (source line 978, comparator
`(a, b) => dateMs(b.date) - dateMs(a.date)`). -/
def dateInsert (dateMs : Str → Int) (x : TimeEntry) : List TimeEntry → List TimeEntry
  | [] => [x]
  | y :: ys =>
      if dateMs y.date < dateMs x.date then x :: y :: ys
      else y :: dateInsert dateMs x ys

/-- The date-descending stable sort of the fallback (source line 978). -/
def sortByDateDesc (dateMs : Str → Int) (l : List TimeEntry) : List TimeEntry :=
  l.foldl (fun acc x => dateInsert dateMs x acc) []

/-- The `mario-kart-times` block (source lines 949-952): a missing key
skips the assignment, a well-formed value is assigned to the ref, and a
malformed value makes `JSON.parse` throw before the assignment — the
error carries the ref state at the throw, unchanged by this block. -/
def loadTimesKey (st : AppState) : JsonCell (List TimeEntry) → Except AppState AppState
  | JsonCell.missing => Except.ok st
  | JsonCell.malformed => Except.error st
  | JsonCell.ok v => Except.ok { st with times := v }

/-- The `mario-kart-profiles` block (source lines 954-961): on a
well-formed value the ref is assigned and the first profile is
auto-selected when none is selected; a malformed value throws with the
state unchanged by this block. -/
def loadProfilesKey (st : AppState) : JsonCell (List Profile) → Except AppState AppState
  | JsonCell.missing => Except.ok st
  | JsonCell.malformed => Except.error st
  | JsonCell.ok ps =>
      Except.ok { st with profiles := ps,
                          selectedProfileId :=
                            if 0 < ps.length ∧ st.selectedProfileId.isEmpty then
                              ps.headI.id
                            else st.selectedProfileId }

/-- The `mario-kart-recent-circuits` block (source lines 963-966). -/
def loadRecentKey (st : AppState) : JsonCell (List Str) → Except AppState AppState
  | JsonCell.missing => Except.ok st
  | JsonCell.malformed => Except.error st
  | JsonCell.ok v => Except.ok { st with recentCircuitsList := v }

/-- The `mario-kart-show-relative-time` block (source lines 968-970). -/
def loadShowRelKey (st : AppState) : JsonCell Bool → Except AppState AppState
  | JsonCell.missing => Except.ok st
  | JsonCell.malformed => Except.error st
  | JsonCell.ok v => Except.ok { st with showRelativeTime := v }

/-- The circuit auto-select after the four reads (source lines 973-980):
take the most recent circuit, or fall back to the circuit of the most
recently dated entry. -/
def selectCircuitAfterLoad (dateMs : Str → Int) (st : AppState) : AppState :=
  if 0 < st.recentCircuitsList.length ∧ st.selectedCircuit.isEmpty then
    { st with selectedCircuit := st.recentCircuitsList.headI }
  else if 0 < st.times.length ∧ st.selectedCircuit.isEmpty then
    { st with selectedCircuit := (sortByDateDesc dateMs st.times).headI.circuit }
  else st

/-- The loader `loadFromLocalStorage` (source lines 946-984), with the
storage contents and the clock `new Date(x).getTime()` passed as
parameters. The four keys are read and assigned to the refs in sequence;
there is no try/catch, so a present key whose value fails to parse throws
out of the whole function with the assignments made so far still in
place — the `.error` case carries the ref state at the moment the
exception escapes. The trailing `saveToLocalStorage()` write-back does
not change the loaded state. -/
def loadFromLocalStorage (dateMs : Str → Int) (storage : StorageModel)
    (st : AppState) : Except AppState AppState := do
  let st ← loadTimesKey st storage.times
  let st ← loadProfilesKey st storage.profiles
  let st ← loadRecentKey st storage.recentCircuits
  let st ← loadShowRelKey st storage.showRelativeTime
  Except.ok (selectCircuitAfterLoad dateMs st)

/-- The per-key degraded value named by the claim: a missing key falls
back to the value already in state, a well-formed key loads its value
(this definition follows the words of the claim, for comparison with
`loadFromLocalStorage`). -/
def cellOr {α : Type} (cur : α) : JsonCell α → α
  | JsonCell.missing => cur
  | JsonCell.malformed => cur
  | JsonCell.ok v => v

/-- A concrete well-formed stored entry for the persistence-load runs. -/
def loadEntry : TimeEntry :=
  ⟨S "1:15.000", S "Rainbow Road", S "p1", S "2024-01-01", S "Standard Kart", S "Toad"⟩

/-- A two-digit seconds string whose `parseInt` value is at most 59 starts
with a character in `[0-5]`. -/
lemma secHi_of_not_gt (b c : Char) (hb : isDig b = true) (hc : isDig c = true)
    (hle : ¬ parseNat [b, c] > 59) : isSecHi b = true := by
  simp only [isDig, decide_eq_true_eq] at hb hc
  fin_cases hb <;> fin_cases hc <;> revert hle <;> decide

/-- C4, counterexample: two raw digits produce `":13"` — an empty minutes
component, which fails the claimed pattern — and seven raw digits produce
the nine-character `"12:34.567"`, exceeding the claimed 8-character bound. -/
theorem c4_counterexample :
    formatTimeString (S "13") = S ":13" ∧ claimMaskPattern (S ":13") = false ∧
    (formatTimeString (S "1234567")).length = 9 := by
  decide

/-- C4, amended: for digit sequences of length 1 through 7 the mask output
never exceeds 9 characters (the 7-digit case is exactly 9, violating the
claimed 8); lengths 1, 3, 6 and 7 match the claimed pattern
`^\d{1,2}(:[0-5]\d(\.\d{3})?)?$` with seconds clamped to 59, while lengths
2, 4 and 5 produce an empty minutes component — the output starts with
`':'` and fails the claimed pattern. -/
theorem c4_amended (ds : Str) (hd : ∀ c ∈ ds, isDig c = true)
    (h1 : 1 ≤ ds.length) (h7 : ds.length ≤ 7) :
    (formatTimeString ds).length ≤ 9 ∧
    ((ds.length = 1 ∨ ds.length = 3 ∨ ds.length = 6 ∨ ds.length = 7) →
      claimMaskPattern (formatTimeString ds) = true) ∧
    ((ds.length = 2 ∨ ds.length = 4 ∨ ds.length = 5) →
      (formatTimeString ds).headI = ':' ∧ claimMaskPattern (formatTimeString ds) = false) := by
  have hfilter : ds.filter isDig = ds := List.filter_eq_self.mpr hd
  rcases ds with _ | ⟨a, _ | ⟨b, _ | ⟨c, _ | ⟨d, _ | ⟨e, _ | ⟨f, _ | ⟨g, _ | ⟨x, t⟩⟩⟩⟩⟩⟩⟩⟩
  · simp at h1
  · -- length 1
    have ha := hd a (by simp)
    have hshape : formatTimeString [a] = [a] := by
      unfold formatTimeString; simp only [hfilter]; rfl
    refine ⟨by simp [hshape], fun _ => ?_, fun hI => by simp at hI⟩
    simp [hshape, claimMaskPattern, ha]
  · -- length 2
    have hshape : formatTimeString [a, b] =
        ':' :: (if parseNat [a, b] > 59 then ['5', '9'] else [a, b]) := by
      unfold formatTimeString; simp only [hfilter]; rfl
    refine ⟨?_, fun hI => by simp at hI, fun _ => ?_⟩
    · by_cases h59 : parseNat [a, b] > 59 <;> simp [hshape, h59]
    · by_cases h59 : parseNat [a, b] > 59 <;> simp [hshape, h59, claimMaskPattern]
  · -- length 3
    have ha := hd a (by simp); have hb := hd b (by simp); have hc := hd c (by simp)
    have hshape : formatTimeString [a, b, c] =
        [a] ++ ':' :: (if parseNat [b, c] > 59 then ['5', '9'] else [b, c]) := by
      unfold formatTimeString; simp only [hfilter]; rfl
    refine ⟨?_, fun _ => ?_, fun hI => by simp at hI⟩
    · by_cases h59 : parseNat [b, c] > 59 <;> simp [hshape, h59]
    · by_cases h59 : parseNat [b, c] > 59
      · simp [hshape, h59, claimMaskPattern, ha] <;> decide
      · simp [hshape, h59, claimMaskPattern, ha, hb, hc, secHi_of_not_gt b c hb hc h59]
  · -- length 4
    have hshape : formatTimeString [a, b, c, d] =
        ':' :: ((if parseNat [a] > 59 then ['5', '9'] else [a]) ++ '.' :: [b, c, d]) := by
      unfold formatTimeString; simp only [hfilter]; rfl
    refine ⟨?_, fun hI => by simp at hI, fun _ => ?_⟩
    · by_cases h59 : parseNat [a] > 59 <;> simp [hshape, h59]
    · by_cases h59 : parseNat [a] > 59 <;> simp [hshape, h59, claimMaskPattern]
  · -- length 5
    have hshape : formatTimeString [a, b, c, d, e] =
        ':' :: ((if parseNat [a, b] > 59 then ['5', '9'] else [a, b]) ++ '.' :: [c, d, e]) := by
      unfold formatTimeString; simp only [hfilter]; rfl
    refine ⟨?_, fun hI => by simp at hI, fun _ => ?_⟩
    · by_cases h59 : parseNat [a, b] > 59 <;> simp [hshape, h59]
    · by_cases h59 : parseNat [a, b] > 59 <;> simp [hshape, h59, claimMaskPattern]
  · -- length 6
    have ha := hd a (by simp); have hb := hd b (by simp); have hc := hd c (by simp)
    have hd4 := hd d (by simp); have he := hd e (by simp); have hf := hd f (by simp)
    have hshape : formatTimeString [a, b, c, d, e, f] =
        [a] ++ ':' :: ((if parseNat [b, c] > 59 then ['5', '9'] else [b, c]) ++ '.' :: [d, e, f]) := by
      unfold formatTimeString; simp only [hfilter]; rfl
    refine ⟨?_, fun _ => ?_, fun hI => by simp at hI⟩
    · by_cases h59 : parseNat [b, c] > 59 <;> simp [hshape, h59]
    · by_cases h59 : parseNat [b, c] > 59
      · simp [hshape, h59, claimMaskPattern, ha, hd4, he, hf] <;> decide
      · simp [hshape, h59, claimMaskPattern, ha, hb, hc, hd4, he, hf,
          secHi_of_not_gt b c hb hc h59]
  · -- length 7
    have ha := hd a (by simp); have hb := hd b (by simp); have hc := hd c (by simp)
    have hd4 := hd d (by simp); have he := hd e (by simp); have hf := hd f (by simp)
    have hg := hd g (by simp)
    have hshape : formatTimeString [a, b, c, d, e, f, g] =
        [a, b] ++ ':' :: ((if parseNat [c, d] > 59 then ['5', '9'] else [c, d]) ++ '.' :: [e, f, g]) := by
      unfold formatTimeString; simp only [hfilter]; rfl
    refine ⟨?_, fun _ => ?_, fun hI => by simp at hI⟩
    · by_cases h59 : parseNat [c, d] > 59 <;> simp [hshape, h59]
    · by_cases h59 : parseNat [c, d] > 59
      · simp [hshape, h59, claimMaskPattern, ha, hb, he, hf, hg] <;> decide
      · simp [hshape, h59, claimMaskPattern, ha, hb, hc, hd4, he, hf, hg,
          secHi_of_not_gt c d hc hd4 h59]
  · -- length at least 8: contradiction
    simp only [List.length_cons] at h7
    omega

/-- Witness for `c4_amended` at the digit sequence `"132456"`. -/
theorem c4_amended_witness :
    ((∀ c ∈ S "132456", isDig c = true) ∧ 1 ≤ (S "132456").length ∧ (S "132456").length ≤ 7) ∧
    (formatTimeString (S "132456")).length ≤ 9 := by
  refine ⟨⟨by decide, by decide, by decide⟩, ?_⟩
  exact (c4_amended (S "132456") (by decide) (by decide) (by decide)).1

/-- The computable addition agrees with the field addition on `ℚ`. -/
lemma ratAdd_eq_add (a b : ℚ) : ratAdd a b = a + b := (Rat.add_def' a b).symm

/-- The fractional branch of `parseFloatQ` is the textbook decimal value. -/
lemma parseFloatQ_frac_value (n m k : Nat) :
    ratAdd (n : ℚ) (mkRat m ((10 : Nat) ^ k)) = (n : ℚ) + (m : ℚ) / ((10 : ℚ) ^ k) := by
  rw [ratAdd_eq_add, Rat.mkRat_eq_div]
  push_cast
  ring

/-- ASCII digits are not JavaScript whitespace. -/
lemma not_ws_of_isDig (c : Char) (h : isDig c = true) : c.isWhitespace = false := by
  simp only [isDig, decide_eq_true_eq] at h
  fin_cases h <;> decide

/-- ASCII digits are not the colon. -/
lemma ne_colon_of_isDig (c : Char) (h : isDig c = true) : ¬ c = ':' := by
  simp only [isDig, decide_eq_true_eq] at h
  fin_cases h <;> decide

/-- ASCII digits are not the dot. -/
lemma ne_dot_of_isDig (c : Char) (h : isDig c = true) : ¬ c = '.' := by
  simp only [isDig, decide_eq_true_eq] at h
  fin_cases h <;> decide

/-- The class `[0-5]` is contained in the digit class. -/
lemma isDig_of_isSecHi (c : Char) (h : isSecHi c = true) : isDig c = true := by
  simp only [isSecHi, decide_eq_true_eq] at h
  fin_cases h <;> decide

/-- A seconds field `[0-5]\d` re-parses to at most 59. -/
lemma parseNat_le_59 (b c : Char) (hb : isSecHi b = true) (hc : isDig c = true) :
    parseNat [b, c] ≤ 59 := by
  simp only [isSecHi, isDig, decide_eq_true_eq] at hb hc
  fin_cases hb <;> fin_cases hc <;> decide

/-- A list with a non-empty (non-nil) form. -/
lemma isEmpty_false_of_ne_nil {α : Type} (l : List α) (h : l ≠ []) : l.isEmpty = false := by
  cases l with
  | nil => exact absurd rfl h
  | cons a t => rfl

/-- Trimming keeps a string non-empty when it holds a non-whitespace
character. -/
lemma jsTrim_not_empty (s : Str) (c : Char) (hc : c ∈ s) (hw : c.isWhitespace = false) :
    (jsTrim s).isEmpty = false := by
  apply isEmpty_false_of_ne_nil
  intro hnil
  unfold jsTrim at hnil
  have h1 := List.reverse_eq_nil_iff.mp hnil
  have h2 := List.dropWhile_eq_nil_iff.mp h1
  have hcd : c ∈ (s.dropWhile Char.isWhitespace) := by
    have hsplit := List.takeWhile_append_dropWhile Char.isWhitespace s
    have := hsplit ▸ hc
    rcases List.mem_append.mp this with h | h
    · exact absurd (List.mem_takeWhile_imp h) (by simp [hw])
    · exact h
  have := h2 c (List.mem_reverse.mpr hcd)
  simp [hw] at this

/-- A strictly matched time string is non-empty. -/
lemma strict_isEmpty_false (s : Str) (h : strictTimeMatch s = true) : s.isEmpty = false := by
  cases s with
  | nil => simp [strictTimeMatch] at h
  | cons a t => rfl

/-- The redundant re-validation inside `isValidTimeFormat` never rejects a
string the strict regex accepted, so the validator and the regex agree. -/
lemma isValid_eq_strict (s : Str) : isValidTimeFormat s = strictTimeMatch s := by
  by_cases h : strictTimeMatch s = true
  · rw [h]
    rcases s with _ | ⟨a1, _ | ⟨a2, _ | ⟨a3, _ | ⟨a4, _ | ⟨a5, _ | ⟨a6, _ | ⟨a7, _ |
      ⟨a8, _ | ⟨a9, _ | ⟨a10, rest⟩⟩⟩⟩⟩⟩⟩⟩⟩⟩
    · simp [strictTimeMatch] at h
    · simp [strictTimeMatch] at h
    · simp [strictTimeMatch] at h
    · simp [strictTimeMatch] at h
    · simp [strictTimeMatch] at h
    · simp [strictTimeMatch] at h
    · simp [strictTimeMatch] at h
    · simp [strictTimeMatch] at h
    · -- length 8 shape
      simp only [strictTimeMatch, Bool.and_eq_true, decide_eq_true_eq] at h
      obtain ⟨⟨⟨⟨⟨⟨⟨hm1, hcol⟩, hs1⟩, hs2⟩, hdot⟩, hd1⟩, hd2⟩, hd3⟩ := h
      subst hcol; subst hdot
      have htrim := jsTrim_not_empty (a1 :: ':' :: a3 :: a4 :: '.' :: a6 :: a7 :: [a8]) a1
        (by simp) (not_ws_of_isDig _ hm1)
      unfold isValidTimeFormat
      rw [htrim]
      simp [splitOnChar, consHead, strictTimeMatch,
        ne_colon_of_isDig _ hm1, ne_colon_of_isDig _ (isDig_of_isSecHi _ hs1),
        ne_colon_of_isDig _ hs2, ne_colon_of_isDig _ hd1, ne_colon_of_isDig _ hd2,
        ne_colon_of_isDig _ hd3, ne_dot_of_isDig _ (isDig_of_isSecHi _ hs1),
        ne_dot_of_isDig _ hs2, ne_dot_of_isDig _ hd1, ne_dot_of_isDig _ hd2,
        ne_dot_of_isDig _ hd3, hm1, hs1, hs2, hd1, hd2, hd3,
        parseNat_le_59 a3 a4 hs1 hs2]
    · -- length 9 shape
      simp only [strictTimeMatch, Bool.and_eq_true, decide_eq_true_eq] at h
      obtain ⟨⟨⟨⟨⟨⟨⟨⟨hm1, hm2⟩, hcol⟩, hs1⟩, hs2⟩, hdot⟩, hd1⟩, hd2⟩, hd3⟩ := h
      subst hcol; subst hdot
      have htrim := jsTrim_not_empty (a1 :: a2 :: ':' :: a4 :: a5 :: '.' :: a7 :: a8 :: [a9]) a1
        (by simp) (not_ws_of_isDig _ hm1)
      unfold isValidTimeFormat
      rw [htrim]
      simp [splitOnChar, consHead, strictTimeMatch,
        ne_colon_of_isDig _ hm1, ne_colon_of_isDig _ hm2,
        ne_colon_of_isDig _ (isDig_of_isSecHi _ hs1),
        ne_colon_of_isDig _ hs2, ne_colon_of_isDig _ hd1, ne_colon_of_isDig _ hd2,
        ne_colon_of_isDig _ hd3, ne_dot_of_isDig _ (isDig_of_isSecHi _ hs1),
        ne_dot_of_isDig _ hs2, ne_dot_of_isDig _ hd1, ne_dot_of_isDig _ hd2,
        ne_dot_of_isDig _ hd3, hm1, hm2, hs1, hs2, hd1, hd2, hd3,
        parseNat_le_59 a4 a5 hs1 hs2]
    · simp [strictTimeMatch] at h
  · have hne : strictTimeMatch s = false := by
      cases hb : strictTimeMatch s with
      | false => rfl
      | true => exact absurd hb h
    rw [hne]
    unfold isValidTimeFormat
    by_cases h1 : (s.isEmpty || (jsTrim s).isEmpty) = true
    · simp [h1]
    · simp [h1, hne]

/-- Minimum over a coerced non-empty list: the `foldr` with top matches the
JavaScript left fold of `Math.min`. -/
lemma foldr_min_top (x : ℚ) (ts : List TimeEntry) :
    min ((x : ℚ) : WithTop ℚ)
        ((ts.map (fun t => ((convertTimeToSeconds t.time : ℚ) : WithTop ℚ))).foldr min ⊤) =
      (((ts.map (fun t => convertTimeToSeconds t.time)).foldl min x : ℚ) : WithTop ℚ) := by
  induction ts generalizing x with
  | nil => simpa using min_eq_left le_top
  | cons y ys ih =>
      simp only [List.map_cons, List.foldr_cons, List.foldl_cons]
      rw [← min_assoc, ← WithTop.coe_min, ih]

/-- The code's `currentBestTime` equals the claim's minimum-with-infinity. -/
lemma currentBestTime_eq_spec (l : List TimeEntry) : currentBestTime l = specBestOf l := by
  unfold currentBestTime specBestOf
  cases l with
  | nil => simp
  | cons t ts =>
      have hpos : (t :: ts).length > 0 := by simp
      rw [if_pos hpos]
      simp only [List.map_cons, List.foldr_cons]
      rw [foldr_min_top]

/-- Any member bounds the spec minimum from above. -/
lemma specBestOf_le_of_mem (l : List TimeEntry) (t : TimeEntry) (h : t ∈ l) :
    specBestOf l ≤ ((convertTimeToSeconds t.time : ℚ) : WithTop ℚ) := by
  induction l with
  | nil => simp at h
  | cons x xs ih =>
      unfold specBestOf
      simp only [List.map_cons, List.foldr_cons]
      rcases List.mem_cons.mp h with rfl | h
      · exact min_le_left _ _
      · exact le_trans (min_le_right _ _) (ih h)

/-- C3: `addTime` is refused as a no-op unless the time passes the strict
grammar and the selected circuit and profile id are non-empty; when it
succeeds, the reported flag equals `toSeconds(time) < min(toSeconds over
same-circuit entries)` with the empty minimum being `+∞`, so the first
entry for a circuit reports `true` and a strictly larger later time
reports `false`. -/
theorem c3_personal_best (st : AppState) (now : Str) :
    ((strictTimeMatch st.formTime = false ∨ st.selectedCircuit = [] ∨ st.selectedProfileId = []) →
      addTime now st = (st, false)) ∧
    (strictTimeMatch st.formTime = true → st.selectedCircuit ≠ [] → st.selectedProfileId ≠ [] →
      (addTime now st).2 =
        decide (((convertTimeToSeconds st.formTime : ℚ) : WithTop ℚ) <
          specBestOf (st.times.filter (fun t => t.circuit == st.selectedCircuit))) ∧
      (st.times.filter (fun t => t.circuit == st.selectedCircuit) = [] →
        (addTime now st).2 = true) ∧
      (∀ t0 ∈ st.times.filter (fun t => t.circuit == st.selectedCircuit),
        convertTimeToSeconds t0.time < convertTimeToSeconds st.formTime →
        (addTime now st).2 = false)) := by
  constructor
  · rintro (h | h | h)
    · unfold addTime
      by_cases h1 : (st.formTime.isEmpty || st.selectedCircuit.isEmpty ||
          st.selectedProfileId.isEmpty) = true
      · simp [h1]
      · simp [h1, isValid_eq_strict, h]
    · unfold addTime
      simp [h]
    · unfold addTime
      simp [h]
  · intro hs hc hp
    have h1 : st.formTime.isEmpty = false := strict_isEmpty_false _ hs
    have h2 : st.selectedCircuit.isEmpty = false := isEmpty_false_of_ne_nil _ hc
    have h3 : st.selectedProfileId.isEmpty = false := isEmpty_false_of_ne_nil _ hp
    have hv : isValidTimeFormat st.formTime = true := by rw [isValid_eq_strict, hs]
    have hflag : (addTime now st).2 =
        decide (((convertTimeToSeconds st.formTime : ℚ) : WithTop ℚ) <
          currentBestTime (st.times.filter (fun t => t.circuit == st.selectedCircuit))) := by
      unfold addTime
      simp [h1, h2, h3, hv]
    rw [hflag, currentBestTime_eq_spec]
    refine ⟨rfl, fun hempty => ?_, fun t0 ht0 hlt => ?_⟩
    · simp [hempty, specBestOf, WithTop.coe_lt_top]
    · have hle := specBestOf_le_of_mem _ t0 ht0
      have : specBestOf (st.times.filter (fun t => t.circuit == st.selectedCircuit)) <
          ((convertTimeToSeconds st.formTime : ℚ) : WithTop ℚ) :=
        lt_of_le_of_lt hle (by exact_mod_cast hlt)
      exact decide_eq_false (not_lt_of_gt this)

/-- Witness for `c3_personal_best`: a first entry on an empty ledger
reports a personal best. -/
theorem c3_personal_best_witness :
    (strictTimeMatch (S "1:20.000") = true ∧ S "Mario Circuit" ≠ ([] : Str) ∧
      S "p1" ≠ ([] : Str)) ∧
    (addTime (S "2024-01-01")
      { emptyState with selectedProfileId := S "p1", selectedCircuit := S "Mario Circuit",
                        formTime := S "1:20.000" }).2 = true := by
  refine ⟨⟨by decide, by decide, by decide⟩, ?_⟩
  exact ((c3_personal_best _ _).2 (by decide) (by decide) (by decide)).2.1 (by decide)

/-- C9: `saveEdit` on a valid index is a no-op unless all four edit-form
fields are non-empty, and on success overwrites the entry at that index in
place while keeping its original `profileId` and `date` (all other entries
untouched, being an in-place `List.set`). -/
theorem c9_edit_frame (st : AppState) (i : Nat) (hid : st.editingTimeId = some i)
    (hlt : i < st.times.length) :
    ((st.editTime.isEmpty || st.editCircuit.isEmpty || st.editCharacter.isEmpty ||
        st.editVehicle.isEmpty) = true → saveEdit st = st) ∧
    ((st.editTime.isEmpty || st.editCircuit.isEmpty || st.editCharacter.isEmpty ||
        st.editVehicle.isEmpty) = false →
      (saveEdit st).times = st.times.set i
        { time := st.editTime, circuit := st.editCircuit,
          profileId := (st.times.getD i default).profileId,
          date := (st.times.getD i default).date,
          vehicle := st.editVehicle, character := st.editCharacter }) := by
  have hn : st.editingTimeId.isNone = false := by rw [hid]; rfl
  constructor
  · intro h
    unfold saveEdit
    rw [hn]
    simp only [Bool.or_false]
    rw [h]
    simp
  · intro h
    unfold saveEdit
    rw [hn]
    simp only [Bool.or_false]
    rw [h]
    simp [hid]

/-- Witness for `c9_edit_frame` at index 0 of a one-entry ledger. -/
theorem c9_edit_frame_witness :
    (saveEdit
      { emptyState with times := [sampleEntry], editingTimeId := some 0,
                        editTime := S "1:25.000", editCircuit := S "Rainbow Road",
                        editCharacter := S "Luigi", editVehicle := S "Bike" }).times =
      [{ sampleEntry with time := S "1:25.000", circuit := S "Rainbow Road",
                          vehicle := S "Bike", character := S "Luigi" }] := by
  have h := (c9_edit_frame
    { emptyState with times := [sampleEntry], editingTimeId := some 0,
                      editTime := S "1:25.000", editCircuit := S "Rainbow Road",
                      editCharacter := S "Luigi", editVehicle := S "Bike" } 0 rfl
    (by decide)).2 (by decide)
  rw [h]
  decide

/-- C6, counterexample: the edit path accepts the one-digit time `"1"`
(only non-emptiness is checked), writing an entry whose time fails the
strict grammar. -/
theorem c6_counterexample :
    ((saveEdit
      { emptyState with times := [sampleEntry], editingTimeId := some 0,
                        editTime := S "1", editCircuit := S "Mario Circuit",
                        editCharacter := S "Mario",
                        editVehicle := S "Standard Kart" }).times.getD 0 default).time = S "1" ∧
    strictTimeMatch (S "1") = false := by
  decide

/-- C6, amended: the add path writes only strict-grammar times, but the
edit path checks only non-emptiness: a successful edit stores the raw
edit-form time, which need not pass the strict grammar. -/
theorem c6_amended :
    (∀ (st : AppState) (now : Str) (e : TimeEntry),
        (addTime now st).1.times = st.times ++ [e] → strictTimeMatch e.time = true) ∧
    (∀ st : AppState, (saveEdit st).times ≠ st.times →
        ∃ i, st.editingTimeId = some i ∧ st.editTime.isEmpty = false ∧
          ((saveEdit st).times.getD i default).time = st.editTime) := by
  constructor
  · intro st now e h
    unfold addTime at h
    by_cases h1 : (st.formTime.isEmpty || st.selectedCircuit.isEmpty ||
        st.selectedProfileId.isEmpty) = true
    · rw [if_pos h1] at h
      exact absurd h.symm (by simp)
    · rw [if_neg h1] at h
      by_cases h2 : (!isValidTimeFormat st.formTime) = true
      · rw [if_pos h2] at h
        exact absurd h.symm (by simp)
      · rw [if_neg h2] at h
        have he : e.time = st.formTime := by
          have := List.append_cancel_left h
          simp at this
          rw [← this]
        rw [he, ← isValid_eq_strict]
        simpa using h2
  · intro st h
    unfold saveEdit at h ⊢
    by_cases hg : (st.editTime.isEmpty || st.editCircuit.isEmpty || st.editCharacter.isEmpty ||
        st.editVehicle.isEmpty || st.editingTimeId.isNone) = true
    · rw [if_pos hg] at h
      exact absurd rfl h
    · rw [if_neg hg] at h
      rw [if_neg hg]
      have hg2 := hg
      simp only [Bool.or_eq_true, not_or, Bool.not_eq_true] at hg2
      obtain ⟨⟨⟨⟨hT, hC⟩, hCh⟩, hV⟩, hN⟩ := hg2
      cases hid : st.editingTimeId with
      | none => rw [hid] at hN; simp at hN
      | some i =>
          refine ⟨i, rfl, hT, ?_⟩
          rw [hid] at h
          have h' : st.times.set i
              { time := st.editTime, circuit := st.editCircuit,
                profileId := (st.times.getD i default).profileId,
                date := (st.times.getD i default).date,
                vehicle := st.editVehicle, character := st.editCharacter } ≠ st.times := h
          show ((st.times.set i
              { time := st.editTime, circuit := st.editCircuit,
                profileId := (st.times.getD i default).profileId,
                date := (st.times.getD i default).date,
                vehicle := st.editVehicle, character := st.editCharacter }).getD i default).time
              = st.editTime
          by_cases hl : i < st.times.length
          · simp [List.getD_eq_getElem?_getD, List.getElem?_set_self, hl]
          · exact absurd (List.set_eq_of_length_le (by omega)) h'

/-- Left folds preserve invariants preserved by each step. -/
lemma foldl_preserve {α β : Type} (P : β → Prop) (f : β → α → β)
    (hf : ∀ b a, P b → P (f b a)) : ∀ (l : List α) (b : β), P b → P (l.foldl f b)
  | [], _, hb => hb
  | a :: l, b, hb => foldl_preserve P f hf l (f b a) (hf b a hb)

/-- A pair in `mapSet m k v` carries the new value or was already in `m`. -/
lemma mapSet_values (m : List (Str × RankInfo)) (k : Str) (v : RankInfo) (p : Str × RankInfo)
    (hp : p ∈ mapSet m k v) : p.2 = v ∨ p ∈ m := by
  unfold mapSet at hp
  by_cases h : m.any (fun q => q.1 == k)
  · rw [if_pos h] at hp
    obtain ⟨q, hq, hqe⟩ := List.mem_map.mp hp
    by_cases h2 : (q.1 == k) = true
    · rw [if_pos h2] at hqe
      left; rw [← hqe]
    · rw [if_neg h2] at hqe
      right; rw [← hqe]; exact hq
  · rw [if_neg h] at hp
    rcases List.mem_append.mp hp with h2 | h2
    · right; exact h2
    · left
      have : p = (k, v) := by simpa using h2
      rw [this]

/-- Every value stored in `timeRankings` is one of the three medals —
ranks 4 and beyond are never inserted and so carry no medal. -/
lemma timeRankings_values (times : List TimeEntry) :
    ∀ p ∈ timeRankings times, p.2 = goldInfo ∨ p.2 = silverInfo ∨ p.2 = bronzeInfo := by
  unfold timeRankings
  apply foldl_preserve
    (fun (m : List (Str × RankInfo)) =>
      ∀ p ∈ m, p.2 = goldInfo ∨ p.2 = silverInfo ∨ p.2 = bronzeInfo)
  · intro m g hm
    apply foldl_preserve
      (fun (m : List (Str × RankInfo)) =>
        ∀ p ∈ m, p.2 = goldInfo ∨ p.2 = silverInfo ∨ p.2 = bronzeInfo)
    · intro m' p hm' q hq
      simp only at hq
      by_cases h1 : p.1 + 1 = 1
      · rw [if_pos h1] at hq
        rcases mapSet_values _ _ _ _ hq with h | h
        · left; exact h
        · exact hm' q h
      · rw [if_neg h1] at hq
        by_cases h2 : p.1 + 1 = 2
        · rw [if_pos h2] at hq
          rcases mapSet_values _ _ _ _ hq with h | h
          · right; left; exact h
          · exact hm' q h
        · rw [if_neg h2] at hq
          by_cases h3 : p.1 + 1 = 3
          · rw [if_pos h3] at hq
            rcases mapSet_values _ _ _ _ hq with h | h
            · right; right; exact h
            · exact hm' q h
          · rw [if_neg h3] at hq
            exact hm' q hq
    · exact hm
  · simp

set_option maxRecDepth 8000 in
/-- C5: in the claimed Mario Circuit example (times 1:20.000, 1:15.000,
1:15.000 inserted in that order) the second entry ranks gold, the
tied-but-later third entry silver and the first entry bronze; and in
general every ranking-table value is one of gold rank 1, silver rank 2,
bronze rank 3 — ranks 4 and beyond carry no medal. -/
theorem c5_ranking :
    (getTimeRanking [rankE1, rankE2, rankE3] rankE2 = some goldInfo ∧
     getTimeRanking [rankE1, rankE2, rankE3] rankE3 = some silverInfo ∧
     getTimeRanking [rankE1, rankE2, rankE3] rankE1 = some bronzeInfo) ∧
    (∀ (times : List TimeEntry) (k : Str) (r : RankInfo),
        mapGet (timeRankings times) k = some r →
        (r.rank = 1 ∧ r = goldInfo) ∨ (r.rank = 2 ∧ r = silverInfo) ∨
        (r.rank = 3 ∧ r = bronzeInfo)) := by
  constructor
  · exact ⟨by decide, by decide, by decide⟩
  · intro times k r h
    unfold mapGet at h
    obtain ⟨p, hfind, hpr⟩ := Option.map_eq_some'.mp h
    have hp := List.mem_of_find?_eq_some hfind
    rcases timeRankings_values times p hp with hv | hv | hv <;> rw [hpr] at hv <;> subst hv
    · left; exact ⟨rfl, rfl⟩
    · right; left; exact ⟨rfl, rfl⟩
    · right; right; exact ⟨rfl, rfl⟩

set_option maxRecDepth 8000 in
/-- Witness for `c5_ranking` on a one-entry ledger: its key maps to gold. -/
theorem c5_ranking_witness :
    mapGet (timeRankings [sampleEntry]) (rankKey sampleEntry) = some goldInfo ∧
    ((goldInfo.rank = 1 ∧ goldInfo = goldInfo) ∨ (goldInfo.rank = 2 ∧ goldInfo = silverInfo) ∨
      (goldInfo.rank = 3 ∧ goldInfo = bronzeInfo)) :=
  ⟨by decide, c5_ranking.2 [sampleEntry] (rankKey sampleEntry) goldInfo (by decide)⟩

/-- A `consHead` result is never empty. -/
lemma consHead_ne_nil (c : Char) (r : List Str) : consHead c r ≠ [] := by
  cases r <;> simp [consHead]

/-- The splitter never returns an empty field list. -/
lemma parseCSVLineGo_ne_nil (inQ : Bool) (s : Str) : parseCSVLineGo inQ s ≠ [] := by
  induction inQ, s using parseCSVLineGo.induct <;>
    (unfold parseCSVLineGo) <;> (repeat' split) <;> simp_all [consHead_ne_nil]

/-- Step: a doubled quote inside quotes emits one literal quote. -/
lemma pclGo_quote_dq (r : Str) :
    parseCSVLineGo true ('"' :: '"' :: r) = consHead '"' (parseCSVLineGo true r) := rfl

/-- Step: a lone quote inside quotes closes the quoted region. -/
lemma pclGo_quote_close (c2 : Char) (r : Str) (h : ¬ c2 = '"') :
    parseCSVLineGo true ('"' :: c2 :: r) = parseCSVLineGo false (c2 :: r) := by
  conv_lhs => rw [parseCSVLineGo.eq_def]
  simp [h]

/-- Step: a quote outside quotes opens a quoted region. -/
lemma pclGo_quote_open (rest : Str) :
    parseCSVLineGo false ('"' :: rest) = parseCSVLineGo true rest := by
  cases rest <;> rfl

/-- Step: an unquoted comma ends the current field. -/
lemma pclGo_comma (rest : Str) :
    parseCSVLineGo false (',' :: rest) = [] :: parseCSVLineGo false rest := by
  cases rest <;> rfl

/-- Step: any other character is appended to the current field. -/
lemma pclGo_plain (inQ : Bool) (c : Char) (rest : Str) (h1 : ¬ c = '"')
    (h2 : ¬ (c = ',' ∧ inQ = false)) :
    parseCSVLineGo inQ (c :: rest) = consHead c (parseCSVLineGo inQ rest) := by
  cases rest <;> (conv_lhs => rw [parseCSVLineGo.eq_def]) <;> simp [h1, h2]

/-- `consHead` commutes with `prependField`. -/
lemma consHead_prependField (c : Char) (f : Str) (r : List Str) :
    consHead c (prependField f r) = prependField (c :: f) r := by
  cases r <;> rfl

/-- `prependField` of the empty field is the identity on non-empty results. -/
lemma prependField_nil (r : List Str) (h : r ≠ []) : prependField [] r = r := by
  cases r with
  | nil => exact absurd rfl h
  | cons s ss => simp [prependField]

/-- A `contains = false` fact yields non-membership. -/
lemma not_mem_of_contains_false (l : Str) (c : Char) (h : l.contains c = false) : c ∉ l := by
  intro hm
  simp_all

/-- Inside quotes, the splitter undoes quote doubling until the closing
quote, provided the closing quote is not immediately followed by another
quote (in an encoded row it is followed by a comma or the end). -/
lemma parseCSVLineGo_true_dq (f : Str) (s : Str) (hs : ∀ s2, s ≠ '"' :: s2) :
    parseCSVLineGo true (doubleQuotes f ++ '"' :: s) =
      prependField f (parseCSVLineGo false s) := by
  induction f with
  | nil =>
      cases s with
      | nil => decide
      | cons c2 r2 =>
          have hc2 : ¬ c2 = '"' := fun h => hs r2 (by rw [h])
          have hd : doubleQuotes [] ++ '"' :: c2 :: r2 = '"' :: c2 :: r2 := by
            simp [doubleQuotes]
          rw [hd, pclGo_quote_close c2 r2 hc2,
            prependField_nil _ (parseCSVLineGo_ne_nil false (c2 :: r2))]
  | cons c f ih =>
      by_cases hc : c = '"'
      · subst hc
        have hd : doubleQuotes ('"' :: f) ++ '"' :: s =
            '"' :: '"' :: (doubleQuotes f ++ '"' :: s) := by
          simp [doubleQuotes]
        rw [hd, pclGo_quote_dq, ih, consHead_prependField]
      · have hd : doubleQuotes (c :: f) ++ '"' :: s = c :: (doubleQuotes f ++ '"' :: s) := by
          simp [doubleQuotes, hc]
        rw [hd, pclGo_plain true c _ hc (by simp), ih, consHead_prependField]

/-- Outside quotes, a field without quotes or commas passes through. -/
lemma parseCSVLineGo_false_plain (f : Str) (hf : ∀ c ∈ f, ¬ c = '"' ∧ ¬ c = ',') (s : Str) :
    parseCSVLineGo false (f ++ s) = prependField f (parseCSVLineGo false s) := by
  induction f with
  | nil => rw [prependField_nil _ (parseCSVLineGo_ne_nil false s)]; rfl
  | cons c f ih =>
      obtain ⟨hq, hcm⟩ := hf c (by simp)
      show parseCSVLineGo false (c :: (f ++ s)) = _
      rw [pclGo_plain false c _ hq (by simp [hcm]),
        ih (fun c hc => hf c (by simp [hc])), consHead_prependField]

/-- Characters of a value never land outside its `escapeCSVField` form. -/
lemma mem_escapeCSVField (v : Str) (c : Char) (hc : c ∈ escapeCSVField v) :
    c ∈ v ∨ c = '"' := by
  unfold escapeCSVField at hc
  by_cases h : needsQuote v = true
  · rw [if_pos h] at hc
    rcases List.mem_cons.mp hc with h2 | h2
    · right; exact h2
    · rcases List.mem_append.mp h2 with h3 | h3
      · unfold doubleQuotes at h3
        obtain ⟨a, ha, hin⟩ := List.mem_flatMap.mp h3
        by_cases haq : a = '"'
        · rw [if_pos haq] at hin
          right
          rcases List.mem_cons.mp hin with h4 | h4
          · exact h4
          · simpa using h4
        · rw [if_neg haq] at hin
          left
          have : c = a := by simpa using hin
          rw [this]; exact ha
      · right; simpa using h3
  · rw [if_neg h] at hc
    left; exact hc

/-- Decoding one escaped field followed by a non-quote continuation. -/
lemma parseCSVLineGo_escape (f : Str) (s : Str) (hs : ∀ s2, s ≠ '"' :: s2) :
    parseCSVLineGo false (escapeCSVField f ++ s) =
      prependField f (parseCSVLineGo false s) := by
  unfold escapeCSVField
  by_cases h : needsQuote f = true
  · rw [if_pos h]
    show parseCSVLineGo false ('"' :: (doubleQuotes f ++ ['"'] ++ s)) = _
    rw [pclGo_quote_open, List.append_assoc, List.singleton_append]
    exact parseCSVLineGo_true_dq f s hs
  · rw [if_neg h]
    apply parseCSVLineGo_false_plain
    intro c hc
    have hcon : ∀ d : Char, d ∈ f → f.contains d = true := by
      intro d hd; simp_all
    constructor
    · intro hq; subst hq
      exact h (by unfold needsQuote; rw [hcon _ hc]; simp)
    · intro hq; subst hq
      exact h (by unfold needsQuote; rw [hcon _ hc]; simp)

/-- The quote-aware splitter inverts the export quoting on every row. -/
lemma parseCSVLine_joinSep (fields : List Str) (hne : fields ≠ []) :
    parseCSVLine (joinSep ',' (fields.map escapeCSVField)) = fields := by
  induction fields with
  | nil => exact absurd rfl hne
  | cons f rest ih =>
      cases rest with
      | nil =>
          show parseCSVLineGo false (escapeCSVField f) = [f]
          rw [← List.append_nil (escapeCSVField f),
            parseCSVLineGo_escape f [] (fun s2 h => by cases h)]
          simp [parseCSVLineGo, prependField]
      | cons g rest2 =>
          show parseCSVLineGo false
            (escapeCSVField f ++ ',' :: joinSep ',' ((g :: rest2).map escapeCSVField)) = _
          rw [parseCSVLineGo_escape f _ (fun s2 h => by cases h), pclGo_comma]
          have hrec : parseCSVLineGo false (joinSep ',' ((g :: rest2).map escapeCSVField)) =
              g :: rest2 := ih (by simp)
          rw [hrec]
          simp [prependField]

/-- C10: decoding a row whose (character, outfit, kart) triple matches no
profile appends a synthesized profile to the registry during decode
itself; `cancelImport` discards only the staged batch, leaving both the
ledger and the (already mutated) registry untouched — demonstrated end to
end on a concrete import followed by Cancel. -/
theorem c10_decode_creates_profiles :
    (∀ (freshId now : Str) (ps : List Profile) (e : CSVTimeEntry),
        findProfileByTriple ps e.character e.outfit e.kart = none →
        (csvToTimeEntry freshId now ps e).2 =
          ps ++ [mkImportProfile freshId now e.character e.outfit e.kart]) ∧
    (∀ st : AppState, (cancelImport st).times = st.times ∧
        (cancelImport st).profiles = st.profiles ∧
        (cancelImport st).pendingImportData = [] ∧
        (cancelImport st).showImportConfirmation = false) ∧
    ((cancelImport (importFromCSV (fun _ => S "fresh-1") (S "now")
        { emptyState with times := [sampleEntry] } c10Text)).times = [sampleEntry] ∧
     (cancelImport (importFromCSV (fun _ => S "fresh-1") (S "now")
        { emptyState with times := [sampleEntry] } c10Text)).profiles =
       [mkImportProfile (S "fresh-1") (S "now") (S "Luigi") (S "Summer") (S "Bike")]) := by
  refine ⟨?_, fun st => ⟨rfl, rfl, rfl, rfl⟩, by decide, by decide⟩
  intro freshId now ps e h
  unfold csvToTimeEntry
  rw [h]

/-- Witness for `c10_decode_creates_profiles` on an empty registry. -/
theorem c10_decode_creates_profiles_witness :
    (findProfileByTriple [] (S "Luigi") (S "Summer") (S "Bike") = none) ∧
    (csvToTimeEntry (S "f") (S "n") []
        ⟨S "d", S "Rainbow Road", S "Luigi", S "Summer", S "Bike", S "1:22.333"⟩).2 =
      [] ++ [mkImportProfile (S "f") (S "n") (S "Luigi") (S "Summer") (S "Bike")] :=
  ⟨by decide, c10_decode_creates_profiles.1 (S "f") (S "n") []
    ⟨S "d", S "Rainbow Road", S "Luigi", S "Summer", S "Bike", S "1:22.333"⟩ (by decide)⟩

/-- C7, counterexample: a circuit containing a double quote is exported
with the quote doubled inside a quoted field, but the decoded staged entry
holds `Marios Raceway` — the literal double quote has been stripped by
the field mapping of the importer, while the claim says the decoded field
value contains it. -/
theorem c7_counterexample :
    escapeCSVField (S "Mario\x22s Raceway") = S "\x22Mario\x22\x22s Raceway\x22" ∧
    (importFromCSV (fun _ => S "id1") (S "now") { emptyState with times := [quoteEntry] }
        (exportCSVContent [] [quoteEntry])).pendingImportData.headI.circuit
      = S "Marios Raceway" ∧
    ((importFromCSV (fun _ => S "id1") (S "now") { emptyState with times := [quoteEntry] }
        (exportCSVContent [] [quoteEntry])).pendingImportData.headI.circuit).contains '"'
      = false := by
  decide

/-- C7, amended: the quote-aware splitter itself inverts the export
quoting on every data row (a doubled quote inside quotes is a literal
quote, splitting happens only on unquoted commas), but the subsequent
field mapping of the importer strips every double quote from each value,
so the stored field value never contains a double-quote character. -/
theorem c7_amended :
    (∀ fields : List Str, fields ≠ [] →
        parseCSVLine (joinSep ',' (fields.map escapeCSVField)) = fields) ∧
    (parseCSVLine (csvRowLine (timeEntryToCSV [] quoteEntry)) =
        csvFieldList (timeEntryToCSV [] quoteEntry)) ∧
    (∀ v : Str, '"' ∈ stripQuotes v → False) := by
  refine ⟨parseCSVLine_joinSep, by decide, ?_⟩
  intro v hv
  unfold stripQuotes at hv
  have := List.of_mem_filter hv
  simp at this

/-- Witness for `c7_amended` on a two-field row with a comma inside the
second field. -/
theorem c7_amended_witness :
    ([S "a", S "b,c"] ≠ ([] : List Str)) ∧
    parseCSVLine (joinSep ',' ([S "a", S "b,c"].map escapeCSVField)) = [S "a", S "b,c"] :=
  ⟨by decide, c7_amended.1 [S "a", S "b,c"] (by decide)⟩

/-- C2, counterexample: with a valid header, a data row whose field count
mismatches the header count is skipped silently: the import stages the one
valid row and reports zero errors, where the claim demands an error count
of one for the mismatched row. -/
theorem c2_counterexample :
    (importFromCSV (fun _ => S "f1") (S "now") emptyState c2BadText).importErrorCount = 0 ∧
    (importFromCSV (fun _ => S "f1") (S "now") emptyState c2BadText).pendingImportData.length
      = 1 ∧
    (parseCSVLine (S "a,b")).length ≠ (parseHeaders headerLine).length := by
  decide

/-- C2, amended: a data row is skipped silently (no error counted) exactly
on a field-count mismatch; with matching field count it is skipped with
the error count incremented exactly when track, character or race_time is
empty or race_time fails the lenient grammar, and otherwise stages exactly
one entry without touching the error count (so no single bad row aborts
the import); a header missing a required column aborts decode entirely
with the state unchanged — nothing staged or committed. -/
theorem c2_amended :
    (∀ (headers : List Str) (freshIds : Nat → Str) (now : Str) (s : ImportLoopState)
        (line : Str), (parseCSVLine line).length ≠ headers.length →
        importLine headers freshIds now s line = s) ∧
    (∀ (headers : List Str) (freshIds : Nat → Str) (now : Str) (s : ImportLoopState)
        (line : Str), (parseCSVLine line).length = headers.length →
        ((buildCSVEntry headers (parseCSVLine line)).track.isEmpty = true ∨
         (buildCSVEntry headers (parseCSVLine line)).character.isEmpty = true ∨
         (buildCSVEntry headers (parseCSVLine line)).race_time.isEmpty = true ∨
         lenientTimeMatch (buildCSVEntry headers (parseCSVLine line)).race_time = false) →
        importLine headers freshIds now s line = { s with errors := s.errors + 1 }) ∧
    (∀ (headers : List Str) (freshIds : Nat → Str) (now : Str) (s : ImportLoopState)
        (line : Str), (parseCSVLine line).length = headers.length →
        (buildCSVEntry headers (parseCSVLine line)).track.isEmpty = false →
        (buildCSVEntry headers (parseCSVLine line)).character.isEmpty = false →
        (buildCSVEntry headers (parseCSVLine line)).race_time.isEmpty = false →
        lenientTimeMatch (buildCSVEntry headers (parseCSVLine line)).race_time = true →
        (importLine headers freshIds now s line).newTimes.length = s.newTimes.length + 1 ∧
        (importLine headers freshIds now s line).errors = s.errors) ∧
    (∀ (freshIds : Nat → Str) (now : Str) (st : AppState) (csvText : Str),
        hasAllHeaders (parseHeaders
          (((splitOnChar '\n' csvText).filter nonBlank).headI)) = false →
        importFromCSV freshIds now st csvText = st) := by
  refine ⟨?_, ?_, ?_, ?_⟩
  · intro headers freshIds now s line h
    simp only [importLine]
    rw [if_pos h]
  · intro headers freshIds now s line hlen h2
    simp only [importLine]
    rw [if_neg (by simp [hlen])]
    by_cases hemp : ((buildCSVEntry headers (parseCSVLine line)).track.isEmpty ||
        (buildCSVEntry headers (parseCSVLine line)).character.isEmpty ||
        (buildCSVEntry headers (parseCSVLine line)).race_time.isEmpty) = true
    · rw [if_pos hemp]
    · rw [if_neg hemp]
      rcases h2 with h | h | h | h
      · simp_all
      · simp_all
      · simp_all
      · rw [if_pos (by simp [h])]
  · intro headers freshIds now s line hlen h1 h2 h3 h4
    simp only [importLine]
    rw [if_neg (by simp [hlen]), if_neg (by simp [h1, h2, h3]), if_neg (by simp [h4])]
    simp
  · intro freshIds now st csvText h
    simp only [importFromCSV]
    by_cases hl : ((splitOnChar '\n' csvText).filter nonBlank).length < 2
    · rw [if_pos hl]
    · rw [if_neg hl, if_pos (by simp [h])]

/-- Witness for `c2_amended`: a two-field row under the real header list is
dropped without any state change. -/
theorem c2_amended_witness :
    ((parseCSVLine (S "a,b")).length ≠ expectedHeaders.length) ∧
    importLine expectedHeaders (fun _ => S "f") (S "now") ⟨[], 0, [], 0⟩ (S "a,b")
      = ⟨[], 0, [], 0⟩ :=
  ⟨by decide, c2_amended.1 expectedHeaders (fun _ => S "f") (S "now") ⟨[], 0, [], 0⟩ (S "a,b")
    (by decide)⟩

/-- Splitting a chunk free of the separator returns it whole. -/
lemma splitOnChar_of_not_mem (sep : Char) (x : Str) (h : sep ∉ x) :
    splitOnChar sep x = [x] := by
  induction x with
  | nil => rfl
  | cons c rest ih =>
      unfold splitOnChar
      rw [if_neg (fun hc => h (by rw [hc]; simp)),
        ih (fun hm => h (by simp [hm]))]
      rfl

/-- Splitting past a separator-free chunk peels it off. -/
lemma splitOnChar_append (sep : Char) (x rest : Str) (h : sep ∉ x) :
    splitOnChar sep (x ++ sep :: rest) = x :: splitOnChar sep rest := by
  induction x with
  | nil =>
      show splitOnChar sep (sep :: rest) = [] :: splitOnChar sep rest
      simp [splitOnChar]
  | cons c x ih =>
      show splitOnChar sep (c :: (x ++ sep :: rest)) = _
      simp only [splitOnChar]
      rw [if_neg (fun hc => h (by rw [hc]; simp)),
        ih (fun hm => h (by simp [hm]))]
      rfl

/-- Splitting inverts joining for separator-free chunks. -/
lemma splitOnChar_joinSep (sep : Char) (l : List Str) (h : ∀ x ∈ l, sep ∉ x)
    (hne : l ≠ []) : splitOnChar sep (joinSep sep l) = l := by
  induction l with
  | nil => exact absurd rfl hne
  | cons x rest ih =>
      cases rest with
      | nil => exact splitOnChar_of_not_mem sep x (h x (by simp))
      | cons y rest2 =>
          show splitOnChar sep (x ++ sep :: joinSep sep (y :: rest2)) = _
          rw [splitOnChar_append sep x _ (h x (by simp)),
            ih (fun z hz => h z (by simp [hz])) (by simp)]

/-- Characters of a chunk appear in the join. -/
lemma mem_joinSep_of_mem (sep : Char) (l : List Str) (x : Str) (c : Char)
    (hx : x ∈ l) (hc : c ∈ x) : c ∈ joinSep sep l := by
  induction l with
  | nil => simp at hx
  | cons y rest ih =>
      cases rest with
      | nil =>
          have : x = y := by simpa using hx
          subst this
          exact hc
      | cons z rest2 =>
          show c ∈ y ++ sep :: joinSep sep (z :: rest2)
          rcases List.mem_cons.mp hx with rfl | hx2
          · exact List.mem_append.mpr (Or.inl hc)
          · exact List.mem_append.mpr (Or.inr (List.mem_cons.mpr (Or.inr (ih hx2))))

/-- Characters of a join are the separator or chunk characters. -/
lemma mem_joinSep (sep : Char) (l : List Str) (c : Char) (hc : c ∈ joinSep sep l) :
    c = sep ∨ ∃ x ∈ l, c ∈ x := by
  induction l with
  | nil => simp [joinSep] at hc
  | cons y rest ih =>
      cases rest with
      | nil => exact Or.inr ⟨y, by simp, hc⟩
      | cons z rest2 =>
          rcases List.mem_append.mp hc with h | h
          · exact Or.inr ⟨y, by simp, h⟩
          · rcases List.mem_cons.mp h with rfl | h2
            · exact Or.inl rfl
            · rcases ih h2 with h3 | ⟨x, hx, hcx⟩
              · exact Or.inl h3
              · exact Or.inr ⟨x, by simp [hx], hcx⟩

/-- Non-membership gives `contains = false`. -/
lemma contains_false_of_not_mem (l : Str) (c : Char) (h : c ∉ l) :
    l.contains c = false := by
  cases hc : l.contains c with
  | false => rfl
  | true => exact absurd (by simp_all : c ∈ l) h

/-- Stripping quotes from a quote-free value is the identity. -/
lemma stripQuotes_id (v : Str) (h : '"' ∉ v) : stripQuotes v = v := by
  apply List.filter_eq_self.mpr
  intro c hc
  have : ¬ c = '"' := fun heq => h (heq ▸ hc)
  simpa using this

/-- The header line parses back to the expected header list. -/
lemma parseHeaders_headerLine : parseHeaders headerLine = expectedHeaders := by decide

/-- The row object rebuilt under the expected headers, field by field. -/
lemma buildCSVEntry_expected (a b c d e f : Str) :
    buildCSVEntry expectedHeaders [a, b, c, d, e, f] =
      ⟨stripQuotes a, stripQuotes b, stripQuotes c, stripQuotes d,
       stripQuotes e, stripQuotes f⟩ := rfl

/-- JavaScript `||` keeps a non-empty left operand. -/
lemma jsOr_of_ne_nil (a b : Str) (h : a ≠ []) : jsOr a b = a := by
  unfold jsOr
  rw [if_neg (by simpa [List.isEmpty_iff] using h)]

/-- A strict-grammar time also passes the lenient import grammar. -/
lemma lenient_of_strict (s : Str) (h : strictTimeMatch s = true) :
    lenientTimeMatch s = true := by
  rcases s with _ | ⟨a1, _ | ⟨a2, _ | ⟨a3, _ | ⟨a4, _ | ⟨a5, _ | ⟨a6, _ | ⟨a7, _ |
    ⟨a8, _ | ⟨a9, _ | ⟨a10, rest⟩⟩⟩⟩⟩⟩⟩⟩⟩⟩
  · simp [strictTimeMatch] at h
  · simp [strictTimeMatch] at h
  · simp [strictTimeMatch] at h
  · simp [strictTimeMatch] at h
  · simp [strictTimeMatch] at h
  · simp [strictTimeMatch] at h
  · simp [strictTimeMatch] at h
  · simp [strictTimeMatch] at h
  · simp only [strictTimeMatch, Bool.and_eq_true, decide_eq_true_eq] at h
    obtain ⟨⟨⟨⟨⟨⟨⟨hm1, hcol⟩, hs1⟩, hs2⟩, hdot⟩, hd1⟩, hd2⟩, hd3⟩ := h
    subst hcol; subst hdot
    simp [lenientTimeMatch, lenientTail, hm1, isDig_of_isSecHi _ hs1, hs2, hd1, hd2, hd3]
  · simp only [strictTimeMatch, Bool.and_eq_true, decide_eq_true_eq] at h
    obtain ⟨⟨⟨⟨⟨⟨⟨⟨hm1, hm2⟩, hcol⟩, hs1⟩, hs2⟩, hdot⟩, hd1⟩, hd2⟩, hd3⟩ := h
    subst hcol; subst hdot
    simp [lenientTimeMatch, lenientTail, hm1, hm2, isDig_of_isSecHi _ hs1, hs2, hd1, hd2, hd3]
  · simp [strictTimeMatch] at h

/-- Digits avoid all the CSV-special and whitespace characters. -/
lemma isDig_plain (c : Char) (h : isDig c = true) :
    ¬ c = ',' ∧ ¬ c = '"' ∧ ¬ c = '\n' ∧ c.isWhitespace = false := by
  simp only [isDig, decide_eq_true_eq] at h
  fin_cases h <;> refine ⟨by decide, by decide, by decide, by decide⟩

/-- Time-grammar characters need no quoting. -/
lemma needsQuote_false_of_timechars (l : Str)
    (hl : ∀ c ∈ l, isDig c = true ∨ c = ':' ∨ c = '.') : needsQuote l = false := by
  unfold needsQuote
  rw [contains_false_of_not_mem _ _ (fun hm => by
        rcases hl _ hm with hd | h2 | h2
        · exact absurd hd (by decide)
        · exact absurd h2 (by decide)
        · exact absurd h2 (by decide)),
      contains_false_of_not_mem _ _ (fun hm => by
        rcases hl _ hm with hd | h2 | h2
        · exact absurd hd (by decide)
        · exact absurd h2 (by decide)
        · exact absurd h2 (by decide)),
      contains_false_of_not_mem _ _ (fun hm => by
        rcases hl _ hm with hd | h2 | h2
        · exact absurd hd (by decide)
        · exact absurd h2 (by decide)
        · exact absurd h2 (by decide))]
  rfl

/-- A strict time needs no quoting and starts with a non-whitespace digit. -/
lemma strict_plain (s : Str) (h : strictTimeMatch s = true) :
    needsQuote s = false ∧ ∃ c ∈ s, c.isWhitespace = false := by
  rcases s with _ | ⟨a1, _ | ⟨a2, _ | ⟨a3, _ | ⟨a4, _ | ⟨a5, _ | ⟨a6, _ | ⟨a7, _ |
    ⟨a8, _ | ⟨a9, _ | ⟨a10, rest⟩⟩⟩⟩⟩⟩⟩⟩⟩⟩
  · simp [strictTimeMatch] at h
  · simp [strictTimeMatch] at h
  · simp [strictTimeMatch] at h
  · simp [strictTimeMatch] at h
  · simp [strictTimeMatch] at h
  · simp [strictTimeMatch] at h
  · simp [strictTimeMatch] at h
  · simp [strictTimeMatch] at h
  · simp only [strictTimeMatch, Bool.and_eq_true, decide_eq_true_eq] at h
    obtain ⟨⟨⟨⟨⟨⟨⟨hm1, hcol⟩, hs1⟩, hs2⟩, hdot⟩, hd1⟩, hd2⟩, hd3⟩ := h
    subst hcol; subst hdot
    refine ⟨needsQuote_false_of_timechars _ ?_, a1, by simp, (isDig_plain _ hm1).2.2.2⟩
    intro c hc
    simp only [List.mem_cons, List.not_mem_nil, or_false] at hc
    rcases hc with rfl | rfl | rfl | rfl | rfl | rfl | rfl | rfl <;>
      simp [hm1, hs2, hd1, hd2, hd3, isDig_of_isSecHi _ hs1]
  · simp only [strictTimeMatch, Bool.and_eq_true, decide_eq_true_eq] at h
    obtain ⟨⟨⟨⟨⟨⟨⟨⟨hm1, hm2⟩, hcol⟩, hs1⟩, hs2⟩, hdot⟩, hd1⟩, hd2⟩, hd3⟩ := h
    subst hcol; subst hdot
    refine ⟨needsQuote_false_of_timechars _ ?_, a1, by simp, (isDig_plain _ hm1).2.2.2⟩
    intro c hc
    simp only [List.mem_cons, List.not_mem_nil, or_false] at hc
    rcases hc with rfl | rfl | rfl | rfl | rfl | rfl | rfl | rfl | rfl <;>
      simp [hm1, hm2, hs2, hd1, hd2, hd3, isDig_of_isSecHi _ hs1]
  · simp [strictTimeMatch] at h

/-- A successful id lookup is stable under appending profiles. -/
lemma find?_id_append (ps ext : List Profile) (idv : Str) (q : Profile)
    (h : ps.find? (fun p => p.id == idv) = some q) :
    (ps ++ ext).find? (fun p => p.id == idv) = some q := by
  rw [List.find?_append, h]; rfl

/-- With distinct ids, looking up a member's id finds that member. -/
lemma find?_id_of_mem_nodup (ps : List Profile) (q : Profile) (hmem : q ∈ ps)
    (hnd : (ps.map Profile.id).Nodup) : ps.find? (fun p => p.id == q.id) = some q := by
  induction ps with
  | nil => simp at hmem
  | cons p ps ih =>
      rw [List.map_cons] at hnd
      obtain ⟨hnotin, hnd2⟩ := List.nodup_cons.mp hnd
      rcases List.mem_cons.mp hmem with rfl | hmem2
      · exact List.find?_cons_of_pos _ (by simp)
      · have hne : ¬ (p.id == q.id) = true := by
          simp only [beq_iff_eq]
          intro he
          exact hnotin (he ▸ List.mem_map_of_mem Profile.id hmem2)
        rw [List.find?_cons_of_neg _ (by simpa using hne)]
        exact ih hmem2 hnd2

/-- The data-row loop on well-formed encoded rows: no errors are counted,
every row is staged in order, the registry only grows while keeping
distinct ids, and re-encoding each staged entry against the final registry
reproduces its row. -/
lemma importLoop_roundtrip (freshIds : Nat → Str) (now : Str)
    (hinj : Function.Injective freshIds) :
    ∀ (rows : List CSVTimeEntry) (acc : ImportLoopState),
      (∀ r ∈ rows, goodCSVRow r) →
      (acc.profiles.map Profile.id).Nodup →
      (∀ k, acc.created ≤ k → freshIds k ∉ acc.profiles.map Profile.id) →
      ∃ (ts : List TimeEntry) (psF : List Profile) (cF : Nat),
        (rows.map csvRowLine).foldl (importLine expectedHeaders freshIds now) acc =
          ⟨acc.newTimes ++ ts, acc.errors, psF, cF⟩ ∧
        (∃ ext, psF = acc.profiles ++ ext) ∧
        (psF.map Profile.id).Nodup ∧
        (∀ k, cF ≤ k → freshIds k ∉ psF.map Profile.id) ∧
        ts.map (timeEntryToCSV psF) = rows := by
  intro rows
  induction rows with
  | nil =>
      intro acc _ hnd hfr
      exact ⟨[], acc.profiles, acc.created, by simp, ⟨[], by simp⟩, hnd, hfr, rfl⟩
  | cons r rows ih =>
      intro acc hg hnd hfr
      obtain ⟨hfields, hstrict⟩ := hg r (by simp)
      have hvals : parseCSVLine (csvRowLine r) = csvFieldList r :=
        parseCSVLine_joinSep (csvFieldList r) (by simp [csvFieldList])
      have h1 := hfields r.time_of_entry (by simp [csvFieldList])
      have h2 := hfields r.track (by simp [csvFieldList])
      have h3 := hfields r.character (by simp [csvFieldList])
      have h4 := hfields r.outfit (by simp [csvFieldList])
      have h5 := hfields r.kart (by simp [csvFieldList])
      have h6 := hfields r.race_time (by simp [csvFieldList])
      have hentry : buildCSVEntry expectedHeaders (csvFieldList r) = r := by
        show buildCSVEntry expectedHeaders
          [r.time_of_entry, r.track, r.character, r.outfit, r.kart, r.race_time] = r
        rw [buildCSVEntry_expected, stripQuotes_id _ h1.2.1, stripQuotes_id _ h2.2.1,
          stripQuotes_id _ h3.2.1, stripQuotes_id _ h4.2.1, stripQuotes_id _ h5.2.1,
          stripQuotes_id _ h6.2.1]
      have hstep : importLine expectedHeaders freshIds now acc (csvRowLine r) =
          ⟨acc.newTimes ++ [(csvToTimeEntry (freshIds acc.created) now acc.profiles r).1],
           acc.errors, (csvToTimeEntry (freshIds acc.created) now acc.profiles r).2,
           if (csvToTimeEntry (freshIds acc.created) now acc.profiles r).2.length =
               acc.profiles.length then acc.created else acc.created + 1⟩ := by
        simp only [importLine, hvals, hentry]
        rw [if_neg (by simp [csvFieldList, expectedHeaders]),
          if_neg (by simp [isEmpty_false_of_ne_nil _ h2.1, isEmpty_false_of_ne_nil _ h3.1,
            isEmpty_false_of_ne_nil _ h6.1]),
          if_neg (by simp [lenient_of_strict _ hstrict])]
      rw [List.map_cons, List.foldl_cons, hstep]
      cases hfind : findProfileByTriple acc.profiles r.character r.outfit r.kart with
      | some p =>
          have hconv : csvToTimeEntry (freshIds acc.created) now acc.profiles r =
              (rowEntry p.id r, acc.profiles) := by
            unfold csvToTimeEntry rowEntry
            rw [hfind]
          rw [hconv]
          simp only [if_pos rfl]
          obtain ⟨ts', psF, cF, hfold, ⟨ext, hext⟩, hndF, hfrF, hmap⟩ :=
            ih ⟨acc.newTimes ++ [rowEntry p.id r], acc.errors, acc.profiles, acc.created⟩
              (fun r2 hr2 => hg r2 (by simp [hr2])) hnd hfr
          refine ⟨rowEntry p.id r :: ts', psF, cF, ?_, ⟨ext, hext⟩, hndF, hfrF, ?_⟩
          · exact hfold.trans (by simp)
          · rw [List.map_cons, hmap]
            congr 1
            have hfind2 : acc.profiles.find? (fun p2 => p2.character == r.character &&
                p2.characterSkin == r.outfit && p2.vehicle == r.kart) = some p := hfind
            have hpmem : p ∈ psF := hext ▸ List.mem_append.mpr
              (Or.inl (List.mem_of_find?_eq_some hfind2))
            have hpred := List.find?_some hfind2
            simp only [Bool.and_eq_true, beq_iff_eq] at hpred
            obtain ⟨⟨hpc, hpo⟩, hpk⟩ := hpred
            have hfindF : psF.find? (fun q => q.id == p.id) = some p :=
              find?_id_of_mem_nodup psF p hpmem hndF
            unfold timeEntryToCSV rowEntry
            simp only [hfindF]
            rw [jsOr_of_ne_nil _ _ h3.1, jsOr_of_ne_nil _ _ h5.1, hpo,
              jsOr_of_ne_nil _ _ h4.1]
      | none =>
          have hconv : csvToTimeEntry (freshIds acc.created) now acc.profiles r =
              (rowEntry (freshIds acc.created) r,
               acc.profiles ++ [mkImportProfile (freshIds acc.created) now
                 r.character r.outfit r.kart]) := by
            unfold csvToTimeEntry rowEntry mkImportProfile
            rw [hfind]
          rw [hconv]
          rw [if_neg (by simp)]
          have hnd' : (((acc.profiles ++ [mkImportProfile (freshIds acc.created) now
              r.character r.outfit r.kart]).map Profile.id)).Nodup := by
            rw [List.map_append]
            apply List.Nodup.append hnd (by simp)
            intro a ha hb
            have : a = freshIds acc.created := by simpa [mkImportProfile] using hb
            exact hfr acc.created le_rfl (this ▸ ha)
          have hfr' : ∀ k, acc.created + 1 ≤ k →
              freshIds k ∉ ((acc.profiles ++ [mkImportProfile (freshIds acc.created) now
                r.character r.outfit r.kart]).map Profile.id) := by
            intro k hk hmem
            rw [List.map_append] at hmem
            rcases List.mem_append.mp hmem with hm | hm
            · exact hfr k (by omega) hm
            · have : freshIds k = freshIds acc.created := by
                simpa [mkImportProfile] using hm
              have := hinj this
              omega
          obtain ⟨ts', psF, cF, hfold, ⟨ext, hext⟩, hndF, hfrF, hmap⟩ :=
            ih ⟨acc.newTimes ++ [rowEntry (freshIds acc.created) r], acc.errors,
                acc.profiles ++ [mkImportProfile (freshIds acc.created) now
                  r.character r.outfit r.kart], acc.created + 1⟩
              (fun r2 hr2 => hg r2 (by simp [hr2])) hnd' hfr'
          refine ⟨rowEntry (freshIds acc.created) r :: ts', psF, cF, ?_, ?_, hndF, hfrF, ?_⟩
          · exact hfold.trans (by simp)
          · refine ⟨[mkImportProfile (freshIds acc.created) now
              r.character r.outfit r.kart] ++ ext, ?_⟩
            rw [hext]
            simp
          · rw [List.map_cons, hmap]
            congr 1
            have hpmem : mkImportProfile (freshIds acc.created) now
                r.character r.outfit r.kart ∈ psF := by
              rw [hext]
              exact List.mem_append.mpr (Or.inl (by simp))
            have hfindF : psF.find? (fun q => q.id == freshIds acc.created) = some
                (mkImportProfile (freshIds acc.created) now r.character r.outfit r.kart) := by
              have := find?_id_of_mem_nodup psF _ hpmem hndF
              simpa [mkImportProfile] using this
            unfold timeEntryToCSV rowEntry
            simp only [hfindF]
            rw [jsOr_of_ne_nil _ _ h3.1, jsOr_of_ne_nil _ _ h5.1]
            simp only [mkImportProfile]
            rw [jsOr_of_ne_nil _ _ h4.1]

/-- A good row's encoded line contains no newline and is not blank. -/
lemma csvRowLine_good (r : CSVTimeEntry) (hr : goodCSVRow r) :
    '\n' ∉ csvRowLine r ∧ nonBlank (csvRowLine r) = true := by
  obtain ⟨hfields, hstrict⟩ := hr
  constructor
  · intro hmem
    unfold csvRowLine at hmem
    rcases mem_joinSep ',' _ _ hmem with heq | ⟨x, hx, hcx⟩
    · exact absurd heq (by decide)
    · obtain ⟨v, hv, rfl⟩ := List.mem_map.mp hx
      rcases mem_escapeCSVField v '\n' hcx with hin | heq
      · exact (hfields v hv).2.2 hin
      · exact absurd heq (by decide)
  · obtain ⟨hq, c, hc, hw⟩ := strict_plain r.race_time hstrict
    have hesc : escapeCSVField r.race_time = r.race_time := by
      simp [escapeCSVField, hq]
    have hmem : c ∈ csvRowLine r := by
      unfold csvRowLine
      apply mem_joinSep_of_mem ',' _ (escapeCSVField r.race_time) c
      · exact List.mem_map_of_mem _ (by simp [csvFieldList])
      · rw [hesc]; exact hc
    unfold nonBlank
    rw [jsTrim_not_empty _ c hmem hw]
    rfl

/-- C1: CSV encode/decode round trip. For any app state with a non-empty
ledger, distinct profile ids, fresh generated ids, and every encoded row
well-formed for the codec (fields non-empty, free of double quotes and
newlines — commas are fine, the quoting protects them — and the race time
in the strict grammar), importing the exported CSV stages a batch with
zero errors and raises the confirmation flag, and a Replace-mode commit
yields a ledger whose entries agree with the original in all six
CSV-mapped fields (the two ledgers encode to the same rows). -/
theorem c1_roundtrip (freshIds : Nat → Str) (now : Str) (st : AppState)
    (hinj : Function.Injective freshIds)
    (hne : st.times ≠ [])
    (hnd : (st.profiles.map Profile.id).Nodup)
    (hfr : ∀ k, freshIds k ∉ st.profiles.map Profile.id)
    (hg : ∀ t ∈ st.times, goodCSVRow (timeEntryToCSV st.profiles t)) :
    ∃ (ts : List TimeEntry) (psF : List Profile),
      importFromCSV freshIds now st (exportCSVContent st.profiles st.times) =
        { st with profiles := psF, pendingImportData := ts,
                  importErrorCount := 0, showImportConfirmation := true } ∧
      confirmImportReplace
          (importFromCSV freshIds now st (exportCSVContent st.profiles st.times)) =
        { st with times := ts, profiles := psF, pendingImportData := [],
                  importErrorCount := 0, showImportConfirmation := false } ∧
      ts.map (timeEntryToCSV psF) = st.times.map (timeEntryToCSV st.profiles) := by
  have hrows : ∀ r ∈ st.times.map (timeEntryToCSV st.profiles), goodCSVRow r := by
    intro r hr
    obtain ⟨t, ht, rfl⟩ := List.mem_map.mp hr
    exact hg t ht
  obtain ⟨ts, psF, cF, hfold, ⟨ext, hext⟩, hndF, hfrF, hmap⟩ :=
    importLoop_roundtrip freshIds now hinj (st.times.map (timeEntryToCSV st.profiles))
      ⟨[], 0, st.profiles, 0⟩ hrows hnd (fun k _ => hfr k)
  have hRLne : (st.times.map (timeEntryToCSV st.profiles)).map csvRowLine ≠ [] := by
    simpa using hne
  have hts : ts ≠ [] := by
    intro h
    rw [h] at hmap
    exact hne (by simpa using hmap.symm)
  have hsplit : splitOnChar '\n' (exportCSVContent st.profiles st.times) =
      headerLine :: (st.times.map (timeEntryToCSV st.profiles)).map csvRowLine := by
    have hmm : st.times.map (fun t => csvRowLine (timeEntryToCSV st.profiles t)) =
        (st.times.map (timeEntryToCSV st.profiles)).map csvRowLine := by
      simp
    unfold exportCSVContent
    rw [hmm]
    apply splitOnChar_joinSep
    · intro x hx
      rcases List.mem_cons.mp hx with rfl | hx2
      · decide
      · obtain ⟨r, hr, rfl⟩ := List.mem_map.mp hx2
        exact (csvRowLine_good r (hrows r hr)).1
    · simp
  have hfilter : (splitOnChar '\n' (exportCSVContent st.profiles st.times)).filter
      nonBlank = headerLine :: (st.times.map (timeEntryToCSV st.profiles)).map csvRowLine := by
    rw [hsplit]
    apply List.filter_eq_self.mpr
    intro x hx
    rcases List.mem_cons.mp hx with rfl | hx2
    · decide
    · obtain ⟨r, hr, rfl⟩ := List.mem_map.mp hx2
      exact (csvRowLine_good r (hrows r hr)).2
  have hlen : ¬ ((headerLine ::
      (st.times.map (timeEntryToCSV st.profiles)).map csvRowLine).length < 2) := by
    have hpos := List.length_pos.mpr hRLne
    simp only [List.length_cons]
    omega
  have himp : importFromCSV freshIds now st (exportCSVContent st.profiles st.times) =
      { st with profiles := psF, pendingImportData := ts,
                importErrorCount := 0, showImportConfirmation := true } := by
    unfold importFromCSV
    simp only [hfilter]
    rw [if_neg hlen]
    simp only [List.headI_cons, List.tail_cons, parseHeaders_headerLine]
    rw [if_neg (by decide)]
    rw [hfold]
    rw [if_neg (by simpa using hts)]
    simp
  exact ⟨ts, psF, himp, by rw [himp]; rfl, hmap⟩

theorem c1_roundtrip_witness :
    (∃ (ts : List TimeEntry) (psF : List Profile),
      importFromCSV freshIdsW (S "now") toadState
          (exportCSVContent toadState.profiles toadState.times) =
        { toadState with profiles := psF, pendingImportData := ts,
                         importErrorCount := 0, showImportConfirmation := true } ∧
      confirmImportReplace
          (importFromCSV freshIdsW (S "now") toadState
            (exportCSVContent toadState.profiles toadState.times)) =
        { toadState with times := ts, profiles := psF, pendingImportData := [],
                         importErrorCount := 0, showImportConfirmation := false } ∧
      ts.map (timeEntryToCSV psF) =
        toadState.times.map (timeEntryToCSV toadState.profiles)) ∧
    (confirmImportReplace
        (importFromCSV freshIdsW (S "now") toadState
          (exportCSVContent toadState.profiles toadState.times))).times.map
      TimeEntry.circuit = [S "Toad\x27s Factory, Remix"] :=
  ⟨c1_roundtrip freshIdsW (S "now") toadState
    (fun a b h => by simpa [freshIdsW] using congrArg List.length h)
    (by decide) (by decide) (fun k => by simp [toadState, emptyState]) (by decide),
   by decide⟩

/-- The four persisted fields are untouched by the circuit auto-select. -/
lemma selectCircuit_fields (dateMs : Str → Int) (st : AppState) :
    (selectCircuitAfterLoad dateMs st).times = st.times ∧
    (selectCircuitAfterLoad dateMs st).profiles = st.profiles ∧
    (selectCircuitAfterLoad dateMs st).recentCircuitsList = st.recentCircuitsList ∧
    (selectCircuitAfterLoad dateMs st).showRelativeTime = st.showRelativeTime := by
  unfold selectCircuitAfterLoad
  split_ifs <;> exact ⟨rfl, rfl, rfl, rfl⟩

/-- C8, counterexample: with a well-formed `mario-kart-times` value, a
malformed `mario-kart-profiles` value and a well-formed recent-circuits
list in storage, the load assigns the times ref and then throws out of
the function: the exception reaches the caller (refuting that the load
never fails), and the well-formed recent-circuits key is never loaded —
the error state still has an empty recent list (refuting that every
other key is still loaded). -/
theorem c8_counterexample :
    loadFromLocalStorage (fun _ => 0)
      ⟨JsonCell.ok [loadEntry], JsonCell.malformed,
       JsonCell.ok [S "Rainbow Road"], JsonCell.ok true⟩ emptyState =
      Except.error { emptyState with times := [loadEntry] } := rfl

/-- C8, amended: the load degrades per key only for missing values. If no
stored value is malformed, the load succeeds and each of the four keys
independently either loads its stored value or keeps the prior one. But a
malformed JSON value for any single key makes the whole load throw out of
the function (there is no try/catch): the keys read before the bad one
keep their loaded values, while the bad key, every later key and the
circuit auto-select never run — and the exception reaches the caller. -/
theorem c8_amended (dateMs : Str → Int) (storage : StorageModel) (st : AppState) :
    (storage.times ≠ JsonCell.malformed ∧ storage.profiles ≠ JsonCell.malformed ∧
     storage.recentCircuits ≠ JsonCell.malformed ∧
     storage.showRelativeTime ≠ JsonCell.malformed →
      ∃ st2, loadFromLocalStorage dateMs storage st = Except.ok st2 ∧
        st2.times = cellOr st.times storage.times ∧
        st2.profiles = cellOr st.profiles storage.profiles ∧
        st2.recentCircuitsList = cellOr st.recentCircuitsList storage.recentCircuits ∧
        st2.showRelativeTime = cellOr st.showRelativeTime storage.showRelativeTime) ∧
    (storage.times = JsonCell.malformed →
      loadFromLocalStorage dateMs storage st = Except.error st) ∧
    (storage.times ≠ JsonCell.malformed ∧ storage.profiles = JsonCell.malformed →
      ∃ stE, loadFromLocalStorage dateMs storage st = Except.error stE ∧
        stE.times = cellOr st.times storage.times ∧
        stE.profiles = st.profiles ∧
        stE.recentCircuitsList = st.recentCircuitsList ∧
        stE.showRelativeTime = st.showRelativeTime ∧
        stE.selectedCircuit = st.selectedCircuit) ∧
    (storage.times ≠ JsonCell.malformed ∧ storage.profiles ≠ JsonCell.malformed ∧
     storage.recentCircuits = JsonCell.malformed →
      ∃ stE, loadFromLocalStorage dateMs storage st = Except.error stE ∧
        stE.times = cellOr st.times storage.times ∧
        stE.profiles = cellOr st.profiles storage.profiles ∧
        stE.recentCircuitsList = st.recentCircuitsList ∧
        stE.showRelativeTime = st.showRelativeTime ∧
        stE.selectedCircuit = st.selectedCircuit) ∧
    (storage.times ≠ JsonCell.malformed ∧ storage.profiles ≠ JsonCell.malformed ∧
     storage.recentCircuits ≠ JsonCell.malformed ∧
     storage.showRelativeTime = JsonCell.malformed →
      ∃ stE, loadFromLocalStorage dateMs storage st = Except.error stE ∧
        stE.times = cellOr st.times storage.times ∧
        stE.profiles = cellOr st.profiles storage.profiles ∧
        stE.recentCircuitsList = cellOr st.recentCircuitsList storage.recentCircuits ∧
        stE.showRelativeTime = st.showRelativeTime ∧
        stE.selectedCircuit = st.selectedCircuit) := by
  obtain ⟨ct, cp, cr, cs⟩ := storage
  refine ⟨?_, ?_, ?_, ?_, ?_⟩
  · rintro ⟨h1, h2, h3, h4⟩
    cases ct <;> cases cp <;> cases cr <;> cases cs <;>
      first
        | exact absurd rfl h1
        | exact absurd rfl h2
        | exact absurd rfl h3
        | exact absurd rfl h4
        | exact ⟨_, rfl, (selectCircuit_fields dateMs _).1,
            (selectCircuit_fields dateMs _).2.1,
            (selectCircuit_fields dateMs _).2.2.1,
            (selectCircuit_fields dateMs _).2.2.2⟩
  · rintro rfl
    rfl
  · rintro ⟨h1, rfl⟩
    cases ct <;>
      first
        | exact absurd rfl h1
        | exact ⟨_, rfl, rfl, rfl, rfl, rfl, rfl⟩
  · rintro ⟨h1, h2, rfl⟩
    cases ct <;> cases cp <;>
      first
        | exact absurd rfl h1
        | exact absurd rfl h2
        | exact ⟨_, rfl, rfl, rfl, rfl, rfl, rfl⟩
  · rintro ⟨h1, h2, h3, rfl⟩
    cases ct <;> cases cp <;> cases cr <;>
      first
        | exact absurd rfl h1
        | exact absurd rfl h2
        | exact absurd rfl h3
        | exact ⟨_, rfl, rfl, rfl, rfl, rfl, rfl⟩

theorem c8_amended_witness :
    (∃ st2, loadFromLocalStorage (fun _ => 0)
        ⟨JsonCell.missing, JsonCell.ok [], JsonCell.ok [S "Rainbow Road"],
         JsonCell.missing⟩ emptyState = Except.ok st2 ∧
      st2.times = cellOr emptyState.times (JsonCell.missing : JsonCell (List TimeEntry)) ∧
      st2.profiles = cellOr emptyState.profiles (JsonCell.ok []) ∧
      st2.recentCircuitsList =
        cellOr emptyState.recentCircuitsList (JsonCell.ok [S "Rainbow Road"]) ∧
      st2.showRelativeTime =
        cellOr emptyState.showRelativeTime (JsonCell.missing : JsonCell Bool)) ∧
    (∃ stE, loadFromLocalStorage (fun _ => 0)
        ⟨JsonCell.ok [loadEntry], JsonCell.malformed,
         JsonCell.ok [S "Rainbow Road"], JsonCell.ok true⟩ emptyState =
        Except.error stE ∧
      stE.times = cellOr emptyState.times (JsonCell.ok [loadEntry]) ∧
      stE.profiles = emptyState.profiles ∧
      stE.recentCircuitsList = emptyState.recentCircuitsList ∧
      stE.showRelativeTime = emptyState.showRelativeTime ∧
      stE.selectedCircuit = emptyState.selectedCircuit) :=
  ⟨(c8_amended (fun _ => 0)
      ⟨JsonCell.missing, JsonCell.ok [], JsonCell.ok [S "Rainbow Road"],
       JsonCell.missing⟩ emptyState).1 (by decide),
   (c8_amended (fun _ => 0)
      ⟨JsonCell.ok [loadEntry], JsonCell.malformed,
       JsonCell.ok [S "Rainbow Road"], JsonCell.ok true⟩ emptyState).2.2.1
     ⟨by decide, rfl⟩⟩
end Mkwlog
